import Mathlib

/-!
Formal model of the corrosion dataset analysis pipeline
(`codigo_python/analyze_dataset_and_create_splits.py`) and of the Grad-CAM
saliency script (`codigo_python/generate_gradcam_figure.py`), together with
proofs about partitioning, labeling, threshold selection, percentage
extraction, statistics reporting and heatmap normalization.

Numbers that the Python code handles as floats are modelled as rationals.
Where IEEE special values (NaN, infinities) are observable, an explicit
extended value type `TV` is used.  Library collaborators
(`sklearn.model_selection.train_test_split`, `sklearn.cluster.KMeans`,
`numpy`, `PIL`, `tensorflow`) are modelled by executable Lean functions
that follow their documented behaviour on the inputs the scripts produce.
-/

/-- Corrosion ratio of a mask, from `calculate_corroded_percentage`
(analyze_dataset_and_create_splits.py lines 25-42): binarize the grayscale
pixel list at the fixed cutoff 127 (strictly greater means corroded) and
return corroded over total times 100.  The PIL file read and the exception
branch are modelled at the call site (`analyzeGo`); this function receives
the decoded pixel list. -/
def calculate_corroded_percentage (mask_pixels : List Nat) : ℚ :=
  let binary_mask := mask_pixels.map fun px => if 127 < px then (1 : Nat) else 0
  let total_pixels := binary_mask.length
  let corroded_pixels := binary_mask.sum
  (corroded_pixels : ℚ) / (total_pixels : ℚ) * 100

/-- One image record, as built by `analyze_all_images` (lines 70-75); the
`cls` field models the `class` key that `classify_images` writes later
(initialized to 0 before classification). -/
structure ImageRecord where
  original_path : String
  mask_path : String
  percentage : ℚ
  filename : String
  cls : Nat
deriving DecidableEq, Inhabited

/-- Body of the classification loop of `classify_images` (lines 114-125):
class 0 below the low threshold, class 1 from low up to but excluding high,
class 2 otherwise. -/
def classify_one (threshold_low threshold_high percentage : ℚ) : Nat :=
  if percentage < threshold_low then 0
  else if percentage < threshold_high then 1
  else 2

/-- `classify_images` (lines 114-125): write the class of every record. -/
def classify_images (results : List ImageRecord) (threshold_low threshold_high : ℚ) :
    List ImageRecord :=
  results.map fun r => { r with cls := classify_one threshold_low threshold_high r.percentage }

/-- Step of the linear congruential generator used to model the seeded
pseudo random stream behind `random_state` in the sklearn calls.  The
concrete constants are irrelevant to every theorem below: all that matters
is that the stream is a function of the seed alone. -/
def lcgNext (s : Nat) : Nat := (1103515245 * s + 12345) % 2147483648

/-- Fuel indexed seeded shuffle: repeatedly extract the element at position
`seed mod length` and advance the generator.  Models the seed determined
permutation that `train_test_split(shuffle=True, random_state=seed)`
applies inside each stratum. -/
def shuffleFuel : Nat → Nat → List Nat → List Nat
  | 0, _, _ => []
  | _ + 1, _, [] => []
  | fuel + 1, s, x :: xs =>
      let l := x :: xs
      let r := s % l.length
      l.getD r 0 :: shuffleFuel fuel (lcgNext s) (l.eraseIdx r)

/-- Seed determined permutation of a list (fuel instantiated at the length). -/
def shuffle (s : Nat) (l : List Nat) : List Nat := shuffleFuel l.length s l

/-- Model of `sklearn.model_selection.train_test_split(indices, test_size,
stratify=labels, random_state=seed)` as called on lines 136-152: group the
indices by their label, shuffle each group with the seeded generator, and
move a `test_size` fraction of each group (rounded up) into the second
component.  Returns (train part, test part). -/
def train_test_split (seed : Nat) (test_size : ℚ) (lab : Nat → Nat) (indices : List Nat) :
    List Nat × List Nat :=
  let classes := (indices.map lab).dedup
  let pieces := classes.map fun c =>
    let g := indices.filter fun i => lab i == c
    let sg := shuffle seed g
    let k := (⌈(g.length : ℚ) * test_size⌉).toNat
    (sg.drop k, sg.take k)
  ((pieces.map Prod.fst).flatten, (pieces.map Prod.snd).flatten)

/-- `RANDOM_SEED` (line 22). -/
def RANDOM_SEED : Nat := 42

/-- `create_stratified_splits` (lines 127-154).  The initial `assert` on the
ratio sum maps to the `none` branch (an `AssertionError` aborts the run);
`none` is also returned when `val_ratio + test_ratio` is zero, where the
Python code would raise `ZeroDivisionError` computing the adjusted ratio.
Otherwise the two stage stratified split of sklearn is performed: first
train versus the rest with `test_size = val_ratio + test_ratio`, then the
rest into validation and test with the adjusted ratio, both stratified by
the record classes and driven by `RANDOM_SEED` style explicit seeds. -/
def create_stratified_splits (seed : Nat) (train_r val_r test_r : ℚ)
    (results : List ImageRecord) : Option (List Nat × List Nat × List Nat) :=
  if |train_r + val_r + test_r - 1| < 1 / 1000 then
    if val_r + test_r = 0 then none
    else
      let labels := results.map fun r => r.cls
      let lab := fun i => labels.getD i 0
      let indices := List.range results.length
      let p1 := train_test_split seed (val_r + test_r) lab indices
      let val_r_adjusted := val_r / (val_r + test_r)
      let p2 := train_test_split seed (1 - val_r_adjusted) lab p1.2
      some (p1.1, p2.1, p2.2)
  else none

/-- Linear interpolation step of `np.percentile(a, q)` with the default
`linear` method, applied to an already sorted list: with
`h = q / 100 * (n - 1)`, `f = floor h` and `frac = h - f`, the result is
`a[f] + frac * (a[f+1] - a[f])`, clamping the upper sample at the end of
the array. -/
def interpAt (a : List ℚ) (h : ℚ) : ℚ :=
  let f := (⌊h⌋).toNat
  let x := a.getD f 0
  let y := a.getD (f + 1) x
  x + (h - (f : ℚ)) * (y - x)

/-- Model of `np.percentile(percentages_array, q)` (lines 92-93): sort the
data ascending and interpolate linearly at rank `q / 100 * (n - 1)`. -/
def np_percentile (ps : List ℚ) (q : ℚ) : ℚ :=
  let a := List.insertionSort (· ≤ ·) ps
  interpAt a (q / 100 * ((a.length : ℚ) - 1))

/-- Model of `np.var`: mean squared deviation from the mean (`np.std` is
its square root, which matters to no statement below). -/
def npVar (ps : List ℚ) : ℚ :=
  let m := ps.sum / (ps.length : ℚ)
  (ps.map fun x => (x - m) * (x - m)).sum / (ps.length : ℚ)

/-- Index of the center of `cs` nearest to `x` (ties to the earlier index);
helper for the 1-D k-means model. -/
def nearestIdx (cs : List ℚ) (x : ℚ) : Nat :=
  (cs.enum.foldl
    (fun best p => if |p.2 - x| < |best.2 - x| then p else best)
    (0, cs.headD 0)).1

/-- One Lloyd iteration on 1-D data: replace every center by the mean of
the points assigned to it, keeping the old center when no point is
assigned. -/
def lloydStep (ps : List ℚ) (cs : List ℚ) : List ℚ :=
  cs.enum.map fun p =>
    let assigned := ps.filter fun x => nearestIdx cs x == p.1
    if assigned.isEmpty then p.2 else assigned.sum / (assigned.length : ℚ)

/-- Fuel bounded Lloyd iteration. -/
def lloydIter : Nat → List ℚ → List ℚ → List ℚ
  | 0, _, cs => cs
  | fuel + 1, ps, cs => lloydIter fuel ps (lloydStep ps cs)

/-- Model of `sklearn.cluster.KMeans(n_clusters=3, random_state=RANDOM_SEED,
n_init=10).fit` on the 1-D percentage data (lines 103-106): Lloyd
iterations to a bounded fixpoint from a deterministic initialization (the
seeded kmeans++ initialization of the library is abstracted to the minimum,
the middle order statistic and the maximum of the data). -/
def kmeans3Centers (ps : List ℚ) : List ℚ :=
  let a := List.insertionSort (· ≤ ·) ps
  let init := [a.getD 0 0, a.getD (a.length / 2) 0, a.getD (a.length - 1) 0]
  lloydIter 20 ps init

/-- `determine_optimal_thresholds` (lines 80-112), dispatching on the method
string exactly as the source does.  `np.percentile` raises `IndexError` on
an empty array, modelled by `none`; an unknown method name leaves the
threshold variables unbound so the final `return` raises `NameError`, also
modelled by `none`; `KMeans.fit` requires at least as many samples as
clusters, modelled by `none` below 3 samples.  No branch validates the
returned pair. -/
def determine_optimal_thresholds (percentages : List ℚ) (method : String) :
    Option (ℚ × ℚ) :=
  if method == "quantile" then
    if percentages.isEmpty then none
    else some (np_percentile percentages 33, np_percentile percentages 67)
  else if method == "domain" then
    some (8, 11)
  else if method == "kmeans" then
    if percentages.length < 3 then none
    else
      let centers := List.insertionSort (· ≤ ·) (kmeans3Centers percentages)
      some ((centers.getD 0 0 + centers.getD 1 0) / 2,
            (centers.getD 1 0 + centers.getD 2 0) / 2)
  else none

/-- Python `min(list, default=0)` style reduction. -/
def minD : List ℚ → ℚ → ℚ
  | [], d => d
  | x :: xs, _ => xs.foldl min x

/-- Python `max(list, default=0)` style reduction. -/
def maxD : List ℚ → ℚ → ℚ
  | [], d => d
  | x :: xs, _ => xs.foldl max x

/-- Model of `np.median`: middle order statistic, or the mean of the two
middle order statistics for even length. -/
def npMedian (l : List ℚ) : ℚ :=
  let a := List.insertionSort (· ≤ ·) l
  let n := a.length
  if n % 2 == 1 then a.getD (n / 2) 0
  else (a.getD (n / 2 - 1) 0 + a.getD (n / 2) 0) / 2

/-- Model of `dict(Counter(l))`: one (key, multiplicity) pair per distinct
element, in first occurrence order. -/
def counterList (l : List Nat) : List (Nat × Nat) :=
  l.dedup.map fun c => (c, l.count c)

/-- The `class_distribution[class_i]` block of the report (lines 180-197):
count, share of the dataset, and min/max corrosion with `default=0` on the
empty sequence. -/
structure ClassStats where
  count : Nat
  percentage : ℚ
  min_corrosion : ℚ
  max_corrosion : ℚ
deriving DecidableEq

/-- The `splits[name]` block of the report (lines 199-215). -/
structure SplitStats where
  size : Nat
  percentage : ℚ
  class_distribution : List (Nat × Nat)
deriving DecidableEq

/-- The `dataset` block of the report (lines 164-171).  `var_percentage`
carries the variance; the `std_percentage` of the source is its square
root, irrelevant to every statement below. -/
structure DatasetStats where
  total_images : Nat
  min_percentage : ℚ
  max_percentage : ℚ
  mean_percentage : ℚ
  median_percentage : ℚ
  var_percentage : ℚ
deriving DecidableEq

/-- The numeric content of the nested statistics dictionary built by
`generate_statistics_report` (lines 156-222); the three formatted range
strings of the `thresholds` block are presentation only and carry no data
beyond the two thresholds. -/
structure StatsReport where
  dataset : DatasetStats
  threshold_low : ℚ
  threshold_high : ℚ
  class_0 : ClassStats
  class_1 : ClassStats
  class_2 : ClassStats
  train : SplitStats
  validation : SplitStats
  test : SplitStats
  random_seed : Nat
deriving DecidableEq

/-- Per class block builder, mirroring lines 180-197. -/
def classStatsFor (results : List ImageRecord) (c : Nat) : ClassStats :=
  let labels := results.map fun r => r.cls
  let ps := (results.filter fun r => r.cls == c).map fun r => r.percentage
  { count := labels.count c
  , percentage := (labels.count c : ℚ) / (labels.length : ℚ) * 100
  , min_corrosion := minD ps 0
  , max_corrosion := maxD ps 0 }

/-- Per split block builder, mirroring lines 199-215; out of range indices
would raise `IndexError` in Python and are absorbed by the default record,
every caller below passes indices inside the range. -/
def splitStatsFor (results : List ImageRecord) (idx : List Nat) : SplitStats :=
  { size := idx.length
  , percentage := (idx.length : ℚ) / (results.length : ℚ) * 100
  , class_distribution := counterList (idx.map fun i => (results.getD i default).cls) }

/-- `generate_statistics_report` (lines 156-222).  `np.min`, `np.max`,
`np.mean` and `np.median` raise on an empty sequence and the class share
divides by `len(labels)`; all of these fail exactly when `results` is
empty, modelled by the single `none` branch.  Every other reduction in the
report is total: the per class min/max use `default=0` and the per split
blocks use `Counter`. -/
def generate_statistics_report (results : List ImageRecord)
    (train_idx val_idx test_idx : List Nat) (threshold_low threshold_high : ℚ) :
    Option StatsReport :=
  if results.isEmpty then none
  else
    let percentages := results.map fun r => r.percentage
    some
      { dataset :=
        { total_images := results.length
        , min_percentage := minD percentages 0
        , max_percentage := maxD percentages 0
        , mean_percentage := percentages.sum / (percentages.length : ℚ)
        , median_percentage := npMedian percentages
        , var_percentage := npVar percentages }
      , threshold_low := threshold_low
      , threshold_high := threshold_high
      , class_0 := classStatsFor results 0
      , class_1 := classStatsFor results 1
      , class_2 := classStatsFor results 2
      , train := splitStatsFor results train_idx
      , validation := splitStatsFor results val_idx
      , test := splitStatsFor results test_idx
      , random_seed := RANDOM_SEED }

/-- One console line printed by `analyze_all_images` (lines 44-78) or by the
exception branch of `calculate_corroded_percentage` (line 41). -/
inductive Msg where
  | found (n : Nat)
  | progress (done : Nat) (total : Nat)
  | warnMissing (mask_file : String)
  | errorProcessing (mask_file : String)
  | analyzed (n : Nat)
deriving DecidableEq

/-- The numbers a console line makes user visible. -/
def msgNums : Msg → List Nat
  | .found n => [n]
  | .progress d t => [d, t]
  | .warnMissing _ => []
  | .errorProcessing _ => []
  | .analyzed n => [n]

/-- File system oracle for `analyze_all_images`: `originalName` is the fixed
filename rewrite `mask_file.replace(CORROSAO, PRINCIPAL)` combined with the
`os.path.join` against the originals directory, `existsOriginal` is
`os.path.exists` on that path, and `readMask` yields the decoded grayscale
pixels of a mask or `none` when `Image.open` raises. -/
structure FileEnv where
  originalName : String → String
  existsOriginal : String → Bool
  readMask : String → Option (List Nat)

/-- Loop body of `analyze_all_images` (lines 53-75), indexed by the running
position for the progress print: a mask whose counterpart original is
missing gets a warning and is skipped; a mask whose read raises gets the
error print of `calculate_corroded_percentage` and is skipped; otherwise a
record is appended. -/
def analyzeGo (env : FileEnv) (total : Nat) : Nat → List String → List Msg × List ImageRecord
  | _, [] => ([], [])
  | i, f :: fs =>
      let rest := analyzeGo env total (i + 1) fs
      let progressMsgs := if (i + 1) % 50 == 0 then [Msg.progress (i + 1) total] else []
      if env.existsOriginal (env.originalName f) then
        match env.readMask f with
        | some pixels =>
            (progressMsgs ++ rest.1,
             { original_path := env.originalName f
             , mask_path := f
             , percentage := calculate_corroded_percentage pixels
             , filename := env.originalName f
             , cls := 0 } :: rest.2)
        | none => (progressMsgs ++ [Msg.errorProcessing f] ++ rest.1, rest.2)
      else (progressMsgs ++ [Msg.warnMissing f] ++ rest.1, rest.2)

/-- `analyze_all_images` (lines 44-78) on the sorted list of mask files:
returns the console lines and the record list.  The `found` line carries
the number of mask files and the closing `analyzed` line carries the number
of records that survived. -/
def analyze_all_images (env : FileEnv) (mask_files : List String) :
    List Msg × List ImageRecord :=
  let r := analyzeGo env mask_files.length 0 mask_files
  (Msg.found mask_files.length :: r.1 ++ [Msg.analyzed r.2.length], r.2)

/-- Extended tensor scalar: a finite rational, NaN, or a signed infinity,
with the IEEE semantics of the tensorflow operations the Grad-CAM script
uses. -/
inductive TV where
  | fin (q : ℚ)
  | nan
  | pinf
  | ninf
deriving DecidableEq

/-- IEEE addition on extended scalars. -/
def TV.add : TV → TV → TV
  | nan, _ => nan
  | _, nan => nan
  | pinf, ninf => nan
  | ninf, pinf => nan
  | pinf, _ => pinf
  | _, pinf => pinf
  | ninf, _ => ninf
  | _, ninf => ninf
  | fin a, fin b => fin (a + b)

/-- IEEE multiplication on extended scalars. -/
def TV.mul : TV → TV → TV
  | nan, _ => nan
  | _, nan => nan
  | pinf, pinf => pinf
  | pinf, ninf => ninf
  | ninf, pinf => ninf
  | ninf, ninf => pinf
  | pinf, fin b => if b = 0 then nan else if 0 < b then pinf else ninf
  | fin a, pinf => if a = 0 then nan else if 0 < a then pinf else ninf
  | ninf, fin b => if b = 0 then nan else if 0 < b then ninf else pinf
  | fin a, ninf => if a = 0 then nan else if 0 < a then ninf else pinf
  | fin a, fin b => fin (a * b)

/-- IEEE division on extended scalars (division by the positive zero of the
rationals). -/
def TV.div : TV → TV → TV
  | nan, _ => nan
  | _, nan => nan
  | pinf, pinf => nan
  | pinf, ninf => nan
  | ninf, pinf => nan
  | ninf, ninf => nan
  | fin _, pinf => fin 0
  | fin _, ninf => fin 0
  | pinf, fin b => if 0 ≤ b then pinf else ninf
  | ninf, fin b => if 0 ≤ b then ninf else pinf
  | fin a, fin b =>
      if b = 0 then (if a = 0 then nan else if 0 < a then pinf else ninf)
      else fin (a / b)

/-- `tf.maximum`: NaN propagating pairwise maximum. -/
def TV.tmax : TV → TV → TV
  | nan, _ => nan
  | _, nan => nan
  | pinf, _ => pinf
  | _, pinf => pinf
  | ninf, b => b
  | a, ninf => a
  | fin a, fin b => fin (max a b)

/-- Sum of a list of extended scalars (tensor reduction). -/
def tvSum (l : List TV) : TV := l.foldl TV.add (TV.fin 0)

/-- `tf.reduce_mean`: sum divided by the element count (NaN on an empty
tensor, from zero over zero). -/
def tvMean (l : List TV) : TV := TV.div (tvSum l) (TV.fin (l.length : ℚ))

/-- `tf.reduce_max`: fold of the NaN propagating maximum, negative infinity
on an empty tensor. -/
def tvReduceMax (l : List TV) : TV := l.foldl TV.tmax TV.ninf

/-- Channel wise dot product `conv_output_position @ pooled_grads`. -/
def dotTV (xs ws : List TV) : TV := tvSum (List.zipWith TV.mul xs ws)

/-- `pooled_grads = tf.reduce_mean(grads, axis=(0, 1, 2))` (line 60): one
spatial mean per channel; `grads` is the gradient tensor with the batch and
spatial axes flattened into the outer list. -/
def pooled_grads (grads : List (List TV)) (channels : Nat) : List TV :=
  (List.range channels).map fun c => tvMean (grads.map fun g => g.getD c TV.nan)

/-- `make_gradcam_heatmap` (generate_gradcam_figure.py lines 36-71), after
the forward and gradient passes: `conv_output` is the activation tensor of
the chosen layer with the spatial grid flattened into the outer list (one
channel vector per position) and `grads` the gradient tensor of the same
shape.  The heatmap is the channel weighted activation sum per position;
the returned tensor is `tf.maximum(heatmap, 0) / tf.math.reduce_max(heatmap)`
(line 70), whose denominator is the maximum of the tensor before
rectification. -/
def make_gradcam_heatmap (conv_output : List (List TV)) (grads : List (List TV)) :
    List TV :=
  let channels := (conv_output.headD []).length
  let pooled := pooled_grads grads channels
  let heatmap := conv_output.map fun pos => dotTV pos pooled
  let m := tvReduceMax heatmap
  heatmap.map fun v => TV.div (TV.tmax v (TV.fin 0)) m

/-- Boolean test that a normalized heatmap value is a finite number inside
the unit interval. -/
def inUnit01 : TV → Bool
  | .fin q => decide (0 ≤ q) && decide (q ≤ 1)
  | _ => false

/-- Rational shadow of `pooled_grads` on finite tensors. -/
def pooledQ (grads : List (List ℚ)) (channels : Nat) : List ℚ :=
  (List.range channels).map fun c =>
    (grads.map fun g => g.getD c 0).sum / (grads.length : ℚ)

/-- Rational shadow of the pre rectification heatmap on finite tensors. -/
def rawHeatQ (conv_output grads : List (List ℚ)) : List ℚ :=
  let channels := (conv_output.headD []).length
  conv_output.map fun pos => (List.zipWith (· * ·) pos (pooledQ grads channels)).sum

/-- Maximum of the rational pre rectification heatmap (0 on an empty grid). -/
def rawMaxQ (conv_output grads : List (List ℚ)) : ℚ :=
  match rawHeatQ conv_output grads with
  | [] => 0
  | x :: xs => xs.foldl max x

/-- Keras layer as seen by `get_last_conv_layer_name`: a name, whether the
layer is a `Conv2D` instance, and the nested sublayers (`layer.layers` of a
wrapped base model; empty for plain layers). -/
inductive KLayer where
  | mk (name : String) (isConv2D : Bool) (sub : List KLayer)

/-- Layer name accessor. -/
def KLayer.name : KLayer → String
  | .mk n _ _ => n

/-- Conv2D instance test accessor. -/
def KLayer.isConv2D : KLayer → Bool
  | .mk _ c _ => c

/-- Sublayer accessor. -/
def KLayer.sub : KLayer → List KLayer
  | .mk _ _ s => s

instance : Inhabited KLayer := ⟨KLayer.mk "" false []⟩

/-- Substring test on strings, used to model the Python `in` operator on
layer names. -/
def strContainsSub (hay needle : String) : Bool :=
  hay.toList.tails.any fun t => needle.toList.isPrefixOf t

/-- `get_last_conv_layer_name` (generate_gradcam_figure.py lines 73-91):
for the exact name `resnet50` scan the sublayers of the first layer
backwards for a name containing `conv`; for the exact name `efficientnet`
also accept `block`; when the branch finds nothing (or the model name is
any other string, including the capitalized names the script actually
passes) fall back to the last top level `Conv2D` layer; return `None` when
nothing qualifies.  Indexing `model.layers[0]` on a model with no layers
would raise in Python; the default layer stands in for it and every
statement below uses models with at least one layer. -/
def get_last_conv_layer_name (layers : List KLayer) (model_name : String) :
    Option String :=
  let branch :=
    if model_name == "resnet50" then
      ((layers.headD default).sub.reverse.find? fun l =>
        strContainsSub l.name.toLower "conv").map fun l => l.name
    else if model_name == "efficientnet" then
      ((layers.headD default).sub.reverse.find? fun l =>
        strContainsSub l.name.toLower "conv" || strContainsSub l.name.toLower "block").map
        fun l => l.name
    else none
  match branch with
  | some n => some n
  | none => (layers.reverse.find? fun l => l.isConv2D).map fun l => l.name

/-- Observable outcome of `generate_figure8` (lines 161-234): either the
early return after the `ERROR: Could not find last conv layer` print (no
figure is produced, no exception is raised), or a figure rendered through
the layer whose name was found.  The rendering body itself is the out of
scope plotting collaborator. -/
inductive FigOutcome where
  | skippedNoLayer
  | saved (layerName : String)
deriving DecidableEq

/-- Control flow skeleton of `generate_figure8` (lines 161-170). -/
def generate_figure8 (layers : List KLayer) (model_name : String) : FigOutcome :=
  match get_last_conv_layer_name layers model_name with
  | none => FigOutcome.skippedNoLayer
  | some nm => FigOutcome.saved nm

/-- The saliency stage of `main` (lines 257-282): both models are processed
in order, each through `generate_figure8` with the capitalized display
names, regardless of the outcome for the previous model. -/
def gradcam_main (resnetLayers effLayers : List KLayer) : List FigOutcome :=
  [generate_figure8 resnetLayers "ResNet50",
   generate_figure8 effLayers "EfficientNet-B0"]

/-- Concrete demonstration model with no Conv2D layer anywhere. -/
def demoNoConvLayers : List KLayer :=
  [KLayer.mk "input_1" false [], KLayer.mk "dense_head" false []]

/-- Concrete demonstration model whose last top level layer is a Conv2D. -/
def demoConvLayers : List KLayer :=
  [KLayer.mk "input_2" false [], KLayer.mk "conv2d_7" true []]

/-- Concrete file environment for the exclusion scenarios: mask `m2` has no
counterpart original, masks `m1` and `m3` are readable with counterparts. -/
def demoEnv : FileEnv :=
  { originalName := fun f =>
      if f == "m1" then "orig1" else if f == "m2" then "orig2" else "orig3"
  , existsOriginal := fun p => p == "orig1" || p == "orig3"
  , readMask := fun f =>
      if f == "m1" then some [200, 0] else if f == "m3" then some [0, 0] else none }

/-- Concrete nine record collection (three per class) for the partitioner
scenarios. -/
def demoRecords : List ImageRecord :=
  (List.range 9).map fun (i : Nat) =>
    { original_path := "o", mask_path := "m", percentage := (i : ℚ)
    , filename := "f", cls := i / 3 }

set_option maxRecDepth 40000


theorem getD_cons_eraseIdx_perm :
    ∀ (l : List Nat) (r : Nat), r < l.length →
      List.Perm (l.getD r 0 :: l.eraseIdx r) l
  | [], r, h => by simp at h
  | x :: xs, 0, _ => by simp
  | x :: xs, r + 1, h => by
    have hr : r < xs.length := by simpa using h
    have ih := getD_cons_eraseIdx_perm xs r hr
    have hswap : List.Perm (xs.getD r 0 :: x :: xs.eraseIdx r) (x :: xs.getD r 0 :: xs.eraseIdx r) :=
      List.Perm.swap x (xs.getD r 0) (xs.eraseIdx r)
    have : List.Perm (xs.getD r 0 :: x :: xs.eraseIdx r) (x :: xs) :=
      hswap.trans (List.Perm.cons x ih)
    simpa [List.eraseIdx] using this

theorem shuffleFuel_perm :
    ∀ (fuel : Nat) (s : Nat) (l : List Nat), l.length ≤ fuel →
      List.Perm (shuffleFuel fuel s l) l
  | 0, _, l, h => by
    have : l = [] := List.length_eq_zero.mp (Nat.le_zero.mp h)
    simp [this, shuffleFuel]
  | fuel + 1, s, [], _ => by simp [shuffleFuel]
  | fuel + 1, s, x :: xs, h => by
    have hpos : 0 < (x :: xs).length := by simp
    have hr : s % (x :: xs).length < (x :: xs).length := Nat.mod_lt _ hpos
    have hlen : ((x :: xs).eraseIdx (s % (x :: xs).length)).length ≤ fuel := by
      rw [List.length_eraseIdx]
      simp only [hr, if_pos]
      omega
    have ih := shuffleFuel_perm fuel (lcgNext s) ((x :: xs).eraseIdx (s % (x :: xs).length)) hlen
    have hstep : shuffleFuel (fuel + 1) s (x :: xs) =
        (x :: xs).getD (s % (x :: xs).length) 0 ::
          shuffleFuel fuel (lcgNext s) ((x :: xs).eraseIdx (s % (x :: xs).length)) := rfl
    rw [hstep]
    exact (List.Perm.cons _ ih).trans (getD_cons_eraseIdx_perm _ _ hr)

theorem shuffle_perm (s : Nat) (l : List Nat) : List.Perm (shuffle s l) l :=
  shuffleFuel_perm l.length s l (Nat.le_refl _)

theorem filter_append_perm_or (p q : Nat → Bool) (hpq : ∀ a, ¬(p a = true ∧ q a = true)) :
    ∀ l : List Nat, List.Perm (l.filter p ++ l.filter q) (l.filter fun a => p a || q a)
  | [] => by simp
  | a :: l => by
    have ih := filter_append_perm_or p q hpq l
    rcases hp : p a <;> rcases hq : q a
    · simpa [List.filter_cons, hp, hq] using ih
    · simp only [List.filter_cons, hp, hq, cond_true, cond_false, Bool.false_or]
      exact List.perm_middle.trans (List.Perm.cons a ih)
    · simp only [List.filter_cons, hp, hq, cond_true, cond_false, Bool.true_or]
      exact List.Perm.cons a ih
    · exact absurd ⟨hp, hq⟩ (hpq a)

theorem flatten_filter_classes (lab : Nat → Nat) :
    ∀ (cs : List Nat), cs.Nodup → ∀ (l : List Nat),
      List.Perm ((cs.map fun c => l.filter fun i => lab i == c).flatten)
        (l.filter fun i => cs.contains (lab i))
  | [], _, l => by simp
  | c :: cs, hnd, l => by
    have hc : c ∉ cs := (List.nodup_cons.mp hnd).1
    have hcs : cs.Nodup := (List.nodup_cons.mp hnd).2
    have ih := flatten_filter_classes lab cs hcs l
    have hdisj : ∀ a, ¬((lab a == c) = true ∧ cs.contains (lab a) = true) := by
      rintro a ⟨h1, h2⟩
      have h1e : lab a = c := by simpa using h1
      rw [h1e] at h2
      exact hc (by simpa using h2)
    have step := filter_append_perm_or (fun i => lab i == c)
      (fun i => cs.contains (lab i)) hdisj l
    have congrf :
        (l.filter fun i => (lab i == c) || cs.contains (lab i)) =
          l.filter fun i => (c :: cs).contains (lab i) := by
      simp only [List.contains_cons]
    have hhead :
        ((c :: cs).map fun c => l.filter fun i => lab i == c).flatten =
          (l.filter fun i => lab i == c) ++
            (cs.map fun c => l.filter fun i => lab i == c).flatten := by
      simp
    rw [hhead, ← congrf]
    exact (ih.append_left (l.filter fun i => lab i == c)).trans step

theorem flatten_pair_perm :
    ∀ ps : List (List Nat × List Nat),
      List.Perm ((ps.map Prod.fst).flatten ++ (ps.map Prod.snd).flatten)
        ((ps.map fun p => p.1 ++ p.2).flatten)
  | [] => by simp
  | (a, b) :: ps => by
    have ih := flatten_pair_perm ps
    have h1 : List.Perm
        ((ps.map Prod.fst).flatten ++ (b ++ (ps.map Prod.snd).flatten))
        (b ++ ((ps.map Prod.fst).flatten ++ (ps.map Prod.snd).flatten)) := by
      rw [← List.append_assoc, ← List.append_assoc]
      exact (List.perm_append_comm).append_right _
    have h2 : List.Perm
        (a ++ ((ps.map Prod.fst).flatten ++ (b ++ (ps.map Prod.snd).flatten)))
        (a ++ (b ++ ((ps.map Prod.fst).flatten ++ (ps.map Prod.snd).flatten))) :=
      h1.append_left a
    have h3 : List.Perm
        (a ++ (b ++ ((ps.map Prod.fst).flatten ++ (ps.map Prod.snd).flatten)))
        (a ++ (b ++ ((ps.map fun p => p.1 ++ p.2).flatten))) :=
      (ih.append_left b).append_left a
    have hL :
        ((((a, b) :: ps).map Prod.fst).flatten ++ (((a, b) :: ps).map Prod.snd).flatten) =
          a ++ ((ps.map Prod.fst).flatten ++ (b ++ (ps.map Prod.snd).flatten)) := by
      simp [List.append_assoc]
    have hR :
        ((((a, b) :: ps).map fun p => p.1 ++ p.2).flatten) =
          a ++ (b ++ ((ps.map fun p => p.1 ++ p.2).flatten)) := by
      simp [List.append_assoc]
    rw [hL, hR]
    exact h2.trans h3

theorem flatten_map_perm_congr (cs : List Nat) (f g : Nat → List Nat)
    (h : ∀ c ∈ cs, List.Perm (f c) (g c)) :
    List.Perm ((cs.map f).flatten) ((cs.map g).flatten) := by
  induction cs with
  | nil => simp
  | cons c cs ih =>
    simpa using (h c (by simp)).append (ih fun x hx => h x (List.mem_cons_of_mem c hx))

theorem train_test_split_perm (seed : Nat) (test_size : ℚ) (lab : Nat → Nat)
    (indices : List Nat) :
    List.Perm ((train_test_split seed test_size lab indices).1 ++
        (train_test_split seed test_size lab indices).2)
      indices := by
  unfold train_test_split
  simp only
  set classes := (indices.map lab).dedup with hclasses
  set F : Nat → List Nat × List Nat := fun c =>
    ((shuffle seed (indices.filter fun i => lab i == c)).drop
        ((⌈((indices.filter fun i => lab i == c).length : ℚ) * test_size⌉).toNat),
     (shuffle seed (indices.filter fun i => lab i == c)).take
        ((⌈((indices.filter fun i => lab i == c).length : ℚ) * test_size⌉).toNat)) with hF
  have hmapfst : (classes.map F).map Prod.fst = classes.map fun c => (F c).1 := by
    simp [List.map_map, Function.comp]
  have hmapsnd : (classes.map F).map Prod.snd = classes.map fun c => (F c).2 := by
    simp [List.map_map, Function.comp]
  have hmappair : (classes.map F).map (fun p => p.1 ++ p.2) =
      classes.map fun c => (F c).1 ++ (F c).2 := by
    simp [List.map_map, Function.comp]
  have step1 := flatten_pair_perm (classes.map F)
  rw [hmappair] at step1
  have step2 : ∀ c ∈ classes,
      List.Perm ((F c).1 ++ (F c).2) (indices.filter fun i => lab i == c) := by
    intro c _
    have hsg := shuffle_perm seed (indices.filter fun i => lab i == c)
    have htd :
        List.Perm ((F c).1 ++ (F c).2)
          (shuffle seed (indices.filter fun i => lab i == c)) := by
      rw [hF]
      exact (List.perm_append_comm).trans
        (by rw [List.take_append_drop])
    exact htd.trans hsg
  have step3 := flatten_map_perm_congr classes (fun c => (F c).1 ++ (F c).2)
    (fun c => indices.filter fun i => lab i == c) step2
  have hcov : (indices.filter fun i => classes.contains (lab i)) = indices := by
    apply List.filter_eq_self.mpr
    intro a ha
    rw [hclasses]
    have : lab a ∈ (indices.map lab).dedup := by
      rw [List.mem_dedup]
      exact List.mem_map_of_mem lab ha
    exact List.elem_iff.mpr this
  have step4 := flatten_filter_classes lab classes (by rw [hclasses]; exact List.nodup_dedup _) indices
  rw [hcov] at step4
  exact (step1.trans step3).trans step4

/-- C1: for every labeled record collection accepted by
`create_stratified_splits`, the three returned index sets are pairwise
disjoint, each free of duplicates, and their union is exactly the full
record index set: no index is omitted and none appears twice. -/
theorem stratified_splits_exact_cover (seed : Nat) (train_r val_r test_r : ℚ)
    (results : List ImageRecord) (tr va te : List Nat)
    (h : create_stratified_splits seed train_r val_r test_r results = some (tr, va, te)) :
    List.Perm (tr ++ (va ++ te)) (List.range results.length) ∧
    tr.Nodup ∧ va.Nodup ∧ te.Nodup ∧
    tr.Disjoint va ∧ tr.Disjoint te ∧ va.Disjoint te ∧
    (∀ i, (i ∈ tr ∨ i ∈ va ∨ i ∈ te) ↔ i < results.length) := by
  unfold create_stratified_splits at h
  split at h
  · split at h
    · exact absurd h (by simp)
    · simp only [Option.some.injEq, Prod.mk.injEq] at h
      obtain ⟨htr, hva, hte⟩ := h
      set lab := fun i => (results.map fun r => r.cls).getD i 0 with hlab
      set p1 := train_test_split seed (val_r + test_r) lab (List.range results.length) with hp1
      set p2 := train_test_split seed (1 - val_r / (val_r + test_r)) lab p1.2 with hp2
      have perm1 : List.Perm (p1.1 ++ p1.2) (List.range results.length) :=
        train_test_split_perm seed (val_r + test_r) lab (List.range results.length)
      have perm2 : List.Perm (p2.1 ++ p2.2) p1.2 :=
        train_test_split_perm seed (1 - val_r / (val_r + test_r)) lab p1.2
      have big : List.Perm (tr ++ (va ++ te)) (List.range results.length) := by
        rw [← htr, ← hva, ← hte]
        exact (perm2.append_left p1.1).trans perm1
      have ndfull : (tr ++ (va ++ te)).Nodup :=
        (big.nodup_iff).mpr (List.nodup_range results.length)
      have nd1 := List.nodup_append.mp ndfull
      have nd2 := List.nodup_append.mp nd1.2.1
      have hdisj := List.disjoint_append_right.mp nd1.2.2
      refine ⟨big, nd1.1, nd2.1, nd2.2.1, hdisj.1, hdisj.2, nd2.2.2, ?_⟩
      intro i
      have hmem : i ∈ tr ++ (va ++ te) ↔ i ∈ List.range results.length := big.mem_iff
      simpa [List.mem_append, List.mem_range, or_assoc] using hmem
  · exact absurd h (by simp)

/-- Concrete instantiation of `stratified_splits_exact_cover` at the nine
record demonstration collection with the ratios and seed of the source. -/
theorem stratified_splits_exact_cover_witness :
    create_stratified_splits 42 (7/10) (3/20) (3/20) demoRecords =
        some ([2, 1, 5, 4, 8, 7], [], [0, 3, 6]) ∧
      (List.Perm (([2, 1, 5, 4, 8, 7] : List Nat) ++ ([] ++ [0, 3, 6]))
          (List.range demoRecords.length) ∧
        ([2, 1, 5, 4, 8, 7] : List Nat).Nodup ∧ ([] : List Nat).Nodup ∧
          ([0, 3, 6] : List Nat).Nodup ∧
        ([2, 1, 5, 4, 8, 7] : List Nat).Disjoint [] ∧
          ([2, 1, 5, 4, 8, 7] : List Nat).Disjoint [0, 3, 6] ∧
          ([] : List Nat).Disjoint [0, 3, 6] ∧
        (∀ i, (i ∈ ([2, 1, 5, 4, 8, 7] : List Nat) ∨ i ∈ ([] : List Nat) ∨
            i ∈ ([0, 3, 6] : List Nat)) ↔ i < demoRecords.length)) :=
  ⟨by with_unfolding_all decide,
   stratified_splits_exact_cover 42 (7/10) (3/20) (3/20) demoRecords _ _ _
     (by with_unfolding_all decide)⟩

/-- C2: the stratified partitioner is deterministic.  Every source of
randomness in `create_stratified_splits` is the explicit `random_state`
seed handed to both `train_test_split` calls, so two runs on the same seed,
the same ratios and the same record collection return identical train,
validation and test index sets. -/
theorem create_splits_deterministic (seed1 seed2 : Nat) (tr1 tr2 vr1 vr2 wr1 wr2 : ℚ)
    (res1 res2 : List ImageRecord) (hs : seed1 = seed2) (ht : tr1 = tr2)
    (hv : vr1 = vr2) (hw : wr1 = wr2) (hr : res1 = res2) :
    create_stratified_splits seed1 tr1 vr1 wr1 res1 =
      create_stratified_splits seed2 tr2 vr2 wr2 res2 := by
  subst hs ht hv hw hr
  rfl

/-- Concrete instantiation of `create_splits_deterministic`: two runs at
seed 42 on the demonstration collection agree. -/
theorem create_splits_deterministic_witness :
    (42 : Nat) = 42 ∧ (7/10 : ℚ) = 7/10 ∧ (3/20 : ℚ) = 3/20 ∧
      demoRecords = demoRecords ∧
      create_stratified_splits 42 (7/10) (3/20) (3/20) demoRecords =
        create_stratified_splits 42 (7/10) (3/20) (3/20) demoRecords :=
  ⟨rfl, rfl, rfl, rfl,
   create_splits_deterministic 42 42 (7/10) (7/10) (3/20) (3/20) (3/20) (3/20)
     demoRecords demoRecords rfl rfl rfl rfl rfl⟩

/-- C3: the labeler applies the uniform half open interval convention.  For
thresholds with `low < high`, `classify_one` returns 0 exactly below `low`,
1 exactly on `[low, high)`, 2 exactly from `high` on; in particular the
boundary values `low` and `high` classify as 1 and 2, and `classify_images`
assigns exactly this class to every record. -/
theorem labeler_half_open (threshold_low threshold_high p : ℚ)
    (h : threshold_low < threshold_high) :
    (classify_one threshold_low threshold_high p = 0 ↔ p < threshold_low) ∧
    (classify_one threshold_low threshold_high p = 1 ↔
      threshold_low ≤ p ∧ p < threshold_high) ∧
    (classify_one threshold_low threshold_high p = 2 ↔ threshold_high ≤ p) ∧
    classify_one threshold_low threshold_high threshold_low = 1 ∧
    classify_one threshold_low threshold_high threshold_high = 2 ∧
    (∀ results : List ImageRecord,
      (classify_images results threshold_low threshold_high).map (fun r => r.cls) =
        results.map fun r => classify_one threshold_low threshold_high r.percentage) := by
  refine ⟨?_, ?_, ?_, ?_, ?_, ?_⟩
  · unfold classify_one
    split
    · simp_all
    · split <;> simp_all
  · unfold classify_one
    split
    · constructor
      · intro hcon; exact absurd hcon (by norm_num)
      · intro ⟨hle, _⟩; linarith
    · split
      · constructor
        · intro _; constructor <;> linarith
        · intro _; rfl
      · constructor
        · intro hcon; exact absurd hcon (by norm_num)
        · intro ⟨_, hlt⟩; linarith
  · unfold classify_one
    split
    · constructor
      · intro hcon; exact absurd hcon (by norm_num)
      · intro hle; linarith
    · split
      · constructor
        · intro hcon; exact absurd hcon (by norm_num)
        · intro hle; linarith
      · simp_all [not_lt]
  · unfold classify_one
    simp [h, not_lt.mpr (le_refl threshold_low)]
  · unfold classify_one
    have h1 : ¬ threshold_high < threshold_low := not_lt.mpr (le_of_lt h)
    have h2 : ¬ threshold_high < threshold_high := lt_irrefl _
    simp [h1, h2]
  · intro results
    unfold classify_images
    simp [List.map_map, Function.comp]

/-- Concrete instantiation of `labeler_half_open` at the domain thresholds
8 and 11 of the source. -/
theorem labeler_half_open_witness :
    (8 : ℚ) < 11 ∧ classify_one 8 11 8 = 1 ∧ classify_one 8 11 11 = 2 ∧
      classify_one 8 11 (79/10) = 0 :=
  ⟨by norm_num,
   (labeler_half_open 8 11 8 (by norm_num)).2.2.2.1,
   (labeler_half_open 8 11 8 (by norm_num)).2.2.2.2.1,
   by with_unfolding_all decide⟩

theorem binary_sum_eq_countP (mask_pixels : List Nat) :
    (mask_pixels.map fun px => if 127 < px then (1 : Nat) else 0).sum =
      mask_pixels.countP fun px => 127 < px := by
  induction mask_pixels with
  | nil => simp
  | cons a l ih =>
    by_cases h : 127 < a
    · simp [List.countP_cons, h, ih, Nat.add_comm]
    · simp [List.countP_cons, h, ih]

/-- C6: the percentage extractor returns the corroded pixel share scaled to
0 - 100.  For every nonempty decoded mask, `calculate_corroded_percentage`
equals the count of pixels strictly above the fixed cutoff 127 divided by
the pixel total times 100, and the value lies in [0, 100]. -/
theorem percentage_extractor_range (mask_pixels : List Nat) (hne : mask_pixels ≠ []) :
    calculate_corroded_percentage mask_pixels =
      ((mask_pixels.countP fun px => 127 < px : Nat) : ℚ) /
        ((mask_pixels.length : Nat) : ℚ) * 100 ∧
    0 ≤ calculate_corroded_percentage mask_pixels ∧
    calculate_corroded_percentage mask_pixels ≤ 100 := by
  have hform : calculate_corroded_percentage mask_pixels =
      ((mask_pixels.countP fun px => 127 < px : Nat) : ℚ) /
        ((mask_pixels.length : Nat) : ℚ) * 100 := by
    unfold calculate_corroded_percentage
    dsimp only
    rw [binary_sum_eq_countP, List.length_map]
  have hlenpos : 0 < (mask_pixels.length : ℚ) := by
    have : 0 < mask_pixels.length := List.length_pos.mpr hne
    exact_mod_cast this
  have hcount : (mask_pixels.countP fun px => 127 < px) ≤ mask_pixels.length :=
    List.countP_le_length _
  have hcountq : ((mask_pixels.countP fun px => 127 < px : Nat) : ℚ) ≤
      ((mask_pixels.length : Nat) : ℚ) := by exact_mod_cast hcount
  have h0 : (0 : ℚ) ≤ ((mask_pixels.countP fun px => 127 < px : Nat) : ℚ) := by positivity
  refine ⟨hform, ?_, ?_⟩
  · rw [hform]; positivity
  · rw [hform]
    have hdiv : ((mask_pixels.countP fun px => 127 < px : Nat) : ℚ) /
        ((mask_pixels.length : Nat) : ℚ) ≤ 1 := by
      rw [div_le_one hlenpos]; exact hcountq
    calc ((mask_pixels.countP fun px => 127 < px : Nat) : ℚ) /
          ((mask_pixels.length : Nat) : ℚ) * 100 ≤ 1 * 100 := by
          exact mul_le_mul_of_nonneg_right hdiv (by norm_num)
      _ = 100 := by norm_num

/-- Concrete instantiation of `percentage_extractor_range` at a two pixel
mask with one corroded pixel. -/
theorem percentage_extractor_range_witness :
    ([200, 0] : List Nat) ≠ [] ∧
      (calculate_corroded_percentage [200, 0] =
          ((([200, 0] : List Nat).countP fun px => 127 < px : Nat) : ℚ) /
            ((([200, 0] : List Nat).length : Nat) : ℚ) * 100 ∧
        0 ≤ calculate_corroded_percentage [200, 0] ∧
        calculate_corroded_percentage [200, 0] ≤ 100) :=
  ⟨by decide, percentage_extractor_range [200, 0] (by decide)⟩

/-- C10: a pixel whose intensity is exactly the cutoff 127 counts as non
corroded: the extractor counts only pixels strictly above 127, so a
nonempty mask whose pixels all equal 127 yields percentage 0. -/
theorem boundary_pixel_not_corroded (mask_pixels : List Nat) (hne : mask_pixels ≠ [])
    (hall : ∀ px ∈ mask_pixels, px = 127) :
    calculate_corroded_percentage mask_pixels = 0 ∧
    mask_pixels.countP (fun px => 127 < px) = 0 := by
  have hcount : mask_pixels.countP (fun px => 127 < px) = 0 := by
    rw [List.countP_eq_zero]
    intro a ha
    rw [hall a ha]
    simp
  constructor
  · have hform := (percentage_extractor_range mask_pixels hne).1
    rw [hform, hcount]
    simp
  · exact hcount

/-- Concrete instantiation of `boundary_pixel_not_corroded` at the constant
127 mask. -/
theorem boundary_pixel_not_corroded_witness :
    ([127, 127] : List Nat) ≠ [] ∧ (∀ px ∈ ([127, 127] : List Nat), px = 127) ∧
      (calculate_corroded_percentage [127, 127] = 0 ∧
        ([127, 127] : List Nat).countP (fun px => 127 < px) = 0) :=
  ⟨by decide, by decide, boundary_pixel_not_corroded [127, 127] (by decide) (by decide)⟩

/-- C8: the statistics reporter tolerates empty classes.  For every
nonempty labeled record collection (the empty collection never reaches the
reporter: `main` aborts earlier, and the numpy reductions would raise
there) the report is produced without failure, and a class with zero
members overall is reported with count 0, share 0 and min/max corrosion 0
from the `default=0` reductions rather than an empty sequence failure. -/
theorem stats_report_zero_class (results : List ImageRecord)
    (train_idx val_idx test_idx : List Nat) (threshold_low threshold_high : ℚ)
    (hne : results ≠ []) :
    ∃ s, generate_statistics_report results train_idx val_idx test_idx
        threshold_low threshold_high = some s ∧
      ((∀ r ∈ results, r.cls ≠ 0) → s.class_0 = ⟨0, 0, 0, 0⟩) ∧
      ((∀ r ∈ results, r.cls ≠ 1) → s.class_1 = ⟨0, 0, 0, 0⟩) ∧
      ((∀ r ∈ results, r.cls ≠ 2) → s.class_2 = ⟨0, 0, 0, 0⟩) := by
  have hempty : results.isEmpty = false := by
    cases results with
    | nil => exact absurd rfl hne
    | cons a l => rfl
  have hzero : ∀ c : Nat, (∀ r ∈ results, r.cls ≠ c) →
      classStatsFor results c = ⟨0, 0, 0, 0⟩ := by
    intro c hc
    have hcount : (results.map fun r => r.cls).count c = 0 := by
      rw [List.count_eq_zero]
      intro hmem
      obtain ⟨r, hr, hrc⟩ := List.mem_map.mp hmem
      exact hc r hr hrc
    have hfilter : (results.filter fun r => r.cls == c) = [] := by
      rw [List.filter_eq_nil_iff]
      intro r hr
      simpa using hc r hr
    unfold classStatsFor
    dsimp only
    rw [hcount, hfilter]
    simp [minD, maxD]
  unfold generate_statistics_report
  rw [hempty]
  simp only [Bool.false_eq_true, if_false]
  refine ⟨_, rfl, ?_, ?_, ?_⟩
  · intro h0
    exact hzero 0 h0
  · intro h1
    exact hzero 1 h1
  · intro h2
    exact hzero 2 h2

/-- Concrete instantiation of `stats_report_zero_class` at a single class 1
record: classes 0 and 2 are empty overall and are reported as zeros. -/
theorem stats_report_zero_class_witness :
    (demoRecords.take 1) ≠ [] ∧
      ∃ s, generate_statistics_report (demoRecords.take 1) [0] [] [] 8 11 = some s ∧
        ((∀ r ∈ demoRecords.take 1, r.cls ≠ 0) → s.class_0 = ⟨0, 0, 0, 0⟩) ∧
        ((∀ r ∈ demoRecords.take 1, r.cls ≠ 1) → s.class_1 = ⟨0, 0, 0, 0⟩) ∧
        ((∀ r ∈ demoRecords.take 1, r.cls ≠ 2) → s.class_2 = ⟨0, 0, 0, 0⟩) :=
  ⟨by with_unfolding_all decide,
   stats_report_zero_class (demoRecords.take 1) [0] [] [] 8 11
     (by with_unfolding_all decide)⟩

theorem analyzeGo_records_indep (env : FileEnv) :
    ∀ (fs : List String) (t1 t2 i j : Nat),
      (analyzeGo env t1 i fs).2 = (analyzeGo env t2 j fs).2
  | [], _, _, _, _ => rfl
  | f :: fs, t1, t2, i, j => by
    have ih := analyzeGo_records_indep env fs t1 t2 (i + 1) (j + 1)
    unfold analyzeGo
    dsimp only
    split
    · cases henv : env.readMask f <;> simp [henv, ih]
    · simp [ih]

theorem analyzeGo_cons (env : FileEnv) (t i : Nat) (f : String) (fs : List String) :
    analyzeGo env t i (f :: fs) =
      (let rest := analyzeGo env t (i + 1) fs
       let progressMsgs := if (i + 1) % 50 == 0 then [Msg.progress (i + 1) t] else []
       if env.existsOriginal (env.originalName f) then
         match env.readMask f with
         | some pixels =>
             (progressMsgs ++ rest.1,
              { original_path := env.originalName f
              , mask_path := f
              , percentage := calculate_corroded_percentage pixels
              , filename := env.originalName f
              , cls := 0 } :: rest.2)
         | none => (progressMsgs ++ [Msg.errorProcessing f] ++ rest.1, rest.2)
       else (progressMsgs ++ [Msg.warnMissing f] ++ rest.1, rest.2)) := rfl

theorem analyzeGo_records_append (env : FileEnv) :
    ∀ (xs ys : List String) (t i : Nat),
      (analyzeGo env t i (xs ++ ys)).2 =
        (analyzeGo env t i xs).2 ++ (analyzeGo env t i ys).2
  | [], ys, t, i => rfl
  | f :: xs, ys, t, i => by
    have ih := analyzeGo_records_append env xs ys t (i + 1)
    have hind := analyzeGo_records_indep env ys t t (i + 1) i
    show (analyzeGo env t i (f :: (xs ++ ys))).2 = _
    rw [analyzeGo_cons env t i f (xs ++ ys), analyzeGo_cons env t i f xs]
    dsimp only
    split
    · cases henv : env.readMask f <;> simp [henv, ih, hind]
    · simp [ih, hind]

theorem analyzeGo_records_le (env : FileEnv) :
    ∀ (fs : List String) (t i : Nat), (analyzeGo env t i fs).2.length ≤ fs.length
  | [], _, _ => by simp [analyzeGo]
  | f :: fs, t, i => by
    have ih := analyzeGo_records_le env fs t (i + 1)
    rw [analyzeGo_cons env t i f fs]
    dsimp only
    split
    · cases henv : env.readMask f <;> simp [henv] <;> omega
    · simp
      omega

theorem analyzeGo_excluded_msg_mem (env : FileEnv) (bad : String)
    (hb : env.existsOriginal (env.originalName bad) = false ∨ env.readMask bad = none) :
    ∀ (pre post : List String) (t i : Nat),
      Msg.warnMissing bad ∈ (analyzeGo env t i (pre ++ bad :: post)).1 ∨
        Msg.errorProcessing bad ∈ (analyzeGo env t i (pre ++ bad :: post)).1
  | [], post, t, i => by
    rcases hex : env.existsOriginal (env.originalName bad) with _ | _
    · left
      show Msg.warnMissing bad ∈ (analyzeGo env t i (bad :: post)).1
      rw [analyzeGo_cons env t i bad post]
      dsimp only
      rw [hex]
      simp
    · have hrm : env.readMask bad = none := by
        rcases hb with hb1 | hb2
        · rw [hex] at hb1
          exact absurd hb1 (by simp)
        · exact hb2
      right
      show Msg.errorProcessing bad ∈ (analyzeGo env t i (bad :: post)).1
      rw [analyzeGo_cons env t i bad post]
      dsimp only
      rw [hex, hrm]
      simp
  | f :: pre, post, t, i => by
    have ih := analyzeGo_excluded_msg_mem env bad hb pre post t (i + 1)
    have hmem : ∀ m : Msg, m ∈ (analyzeGo env t (i + 1) (pre ++ bad :: post)).1 →
        m ∈ (analyzeGo env t i ((f :: pre) ++ bad :: post)).1 := by
      intro m hm
      show m ∈ (analyzeGo env t i (f :: (pre ++ bad :: post))).1
      rw [analyzeGo_cons env t i f (pre ++ bad :: post)]
      dsimp only
      split
      · cases henv : env.readMask f <;> simp [henv] <;> tauto
      · simp
        tauto
    rcases ih with ih | ih
    · exact Or.inl (hmem _ ih)
    · exact Or.inr (hmem _ ih)

/-- C7 counterexample: on a concrete batch of three masks where exactly one
mask (`m2`) has no counterpart original, the run prints `found 3`, one
warning line with no number, and `analyzed 2`.  The excluded count is 1,
yet no user visible number equals 1: the output reports the found and
analyzed totals only, never the excluded count itself, and the source
maintains no exclusion counter variable. -/
theorem analyze_excluded_count_not_printed :
    (analyze_all_images demoEnv ["m1", "m2", "m3"]).1 =
        [Msg.found 3, Msg.warnMissing "m2", Msg.analyzed 2] ∧
      (analyze_all_images demoEnv ["m1", "m2", "m3"]).2.length = 2 ∧
      (["m1", "m2", "m3"] : List String).length -
          (analyze_all_images demoEnv ["m1", "m2", "m3"]).2.length = 1 ∧
      ∀ m ∈ (analyze_all_images demoEnv ["m1", "m2", "m3"]).1,
        (1 : Nat) ∉ msgNums m := by
  refine ⟨?_, ?_, ?_, ?_⟩ <;> with_unfolding_all decide

/-- C7 amended: a mask whose counterpart original is missing or whose file
is unreadable is excluded without aborting the batch: the surviving records
are exactly those of the batch without it, the implicit exclusion count
(mask files minus surviving records) grows by exactly 1 for it, the output
carries the found and analyzed totals whose difference is that count, and a
per exclusion warning or error line for the mask is printed — but no
message carries the excluded count itself. -/
theorem analyze_excludes_without_abort (env : FileEnv) (pre post : List String)
    (bad : String)
    (hb : env.existsOriginal (env.originalName bad) = false ∨ env.readMask bad = none) :
    (analyze_all_images env (pre ++ bad :: post)).2 =
        (analyze_all_images env (pre ++ post)).2 ∧
      (pre ++ bad :: post).length - (analyze_all_images env (pre ++ bad :: post)).2.length =
        ((pre ++ post).length - (analyze_all_images env (pre ++ post)).2.length) + 1 ∧
      Msg.found (pre ++ bad :: post).length ∈ (analyze_all_images env (pre ++ bad :: post)).1 ∧
      Msg.analyzed (analyze_all_images env (pre ++ bad :: post)).2.length ∈
        (analyze_all_images env (pre ++ bad :: post)).1 ∧
      (Msg.warnMissing bad ∈ (analyze_all_images env (pre ++ bad :: post)).1 ∨
        Msg.errorProcessing bad ∈ (analyze_all_images env (pre ++ bad :: post)).1) := by
  have hbadnil : ∀ t i, (analyzeGo env t i [bad]).2 = [] := by
    intro t i
    rw [analyzeGo_cons]
    dsimp only
    rcases hb with hb1 | hb2
    · rw [hb1]
      simp [analyzeGo]
    · split
      · rw [hb2]
        simp [analyzeGo]
      · simp [analyzeGo]
  have hrec : ∀ t1 t2 : Nat,
      (analyzeGo env t1 0 (pre ++ bad :: post)).2 = (analyzeGo env t2 0 (pre ++ post)).2 := by
    intro t1 t2
    have h1 : pre ++ bad :: post = pre ++ ([bad] ++ post) := rfl
    rw [h1, analyzeGo_records_append env pre ([bad] ++ post) t1 0,
      analyzeGo_records_append env [bad] post t1 0,
      analyzeGo_records_append env pre post t2 0, hbadnil]
    rw [analyzeGo_records_indep env pre t1 t2 0 0,
      analyzeGo_records_indep env post t1 t2 0 0]
    simp
  have hfull2 : (analyze_all_images env (pre ++ bad :: post)).2 =
      (analyzeGo env (pre ++ bad :: post).length 0 (pre ++ bad :: post)).2 := rfl
  have hrest2 : (analyze_all_images env (pre ++ post)).2 =
      (analyzeGo env (pre ++ post).length 0 (pre ++ post)).2 := rfl
  have heq : (analyze_all_images env (pre ++ bad :: post)).2 =
      (analyze_all_images env (pre ++ post)).2 := by
    rw [hfull2, hrest2]
    exact hrec _ _
  have hlenfull : (pre ++ bad :: post).length = (pre ++ post).length + 1 := by
    simp [List.length_append]
    omega
  have hle : (analyze_all_images env (pre ++ post)).2.length ≤ (pre ++ post).length := by
    rw [hrest2]
    exact analyzeGo_records_le env (pre ++ post) _ 0
  refine ⟨heq, ?_, ?_, ?_, ?_⟩
  · rw [heq, hlenfull]
    omega
  · show Msg.found (pre ++ bad :: post).length ∈
      Msg.found (pre ++ bad :: post).length ::
        ((analyzeGo env (pre ++ bad :: post).length 0 (pre ++ bad :: post)).1 ++
          [Msg.analyzed (analyzeGo env (pre ++ bad :: post).length 0 (pre ++ bad :: post)).2.length])
    exact List.mem_cons_self _ _
  · show Msg.analyzed (analyzeGo env (pre ++ bad :: post).length 0 (pre ++ bad :: post)).2.length ∈
      Msg.found (pre ++ bad :: post).length ::
        ((analyzeGo env (pre ++ bad :: post).length 0 (pre ++ bad :: post)).1 ++
          [Msg.analyzed (analyzeGo env (pre ++ bad :: post).length 0 (pre ++ bad :: post)).2.length])
    simp
  · have hmsg := analyzeGo_excluded_msg_mem env bad hb pre post (pre ++ bad :: post).length 0
    have hlift : ∀ m : Msg,
        m ∈ (analyzeGo env (pre ++ bad :: post).length 0 (pre ++ bad :: post)).1 →
          m ∈ (analyze_all_images env (pre ++ bad :: post)).1 := by
      intro m hm
      show m ∈ Msg.found (pre ++ bad :: post).length ::
        ((analyzeGo env (pre ++ bad :: post).length 0 (pre ++ bad :: post)).1 ++ _)
      exact List.mem_cons_of_mem _ (List.mem_append_left _ hm)
    rcases hmsg with hmsg | hmsg
    · exact Or.inl (hlift _ hmsg)
    · exact Or.inr (hlift _ hmsg)

/-- Concrete instantiation of `analyze_excludes_without_abort` at the
demonstration environment, with `m2` missing its counterpart between two
good masks. -/
theorem analyze_excludes_without_abort_witness :
    (demoEnv.existsOriginal (demoEnv.originalName "m2") = false ∨
        demoEnv.readMask "m2" = none) ∧
      ((analyze_all_images demoEnv (["m1"] ++ "m2" :: ["m3"])).2 =
          (analyze_all_images demoEnv (["m1"] ++ ["m3"])).2 ∧
        (["m1"] ++ "m2" :: ["m3"]).length -
            (analyze_all_images demoEnv (["m1"] ++ "m2" :: ["m3"])).2.length =
          ((["m1"] ++ ["m3"]).length -
            (analyze_all_images demoEnv (["m1"] ++ ["m3"])).2.length) + 1 ∧
        Msg.found (["m1"] ++ "m2" :: ["m3"]).length ∈
          (analyze_all_images demoEnv (["m1"] ++ "m2" :: ["m3"])).1 ∧
        Msg.analyzed (analyze_all_images demoEnv (["m1"] ++ "m2" :: ["m3"])).2.length ∈
          (analyze_all_images demoEnv (["m1"] ++ "m2" :: ["m3"])).1 ∧
        (Msg.warnMissing "m2" ∈ (analyze_all_images demoEnv (["m1"] ++ "m2" :: ["m3"])).1 ∨
          Msg.errorProcessing "m2" ∈
            (analyze_all_images demoEnv (["m1"] ++ "m2" :: ["m3"])).1)) :=
  ⟨Or.inl (by with_unfolding_all decide),
   analyze_excludes_without_abort demoEnv ["m1"] ["m3"] "m2"
     (Or.inl (by with_unfolding_all decide))⟩

/-- C9 counterexample: on a concrete model with no Conv2D layer anywhere,
`generate_figure8` returns normally after the error print instead of
raising, and the run continues: the saliency stage still processes the
second model and saves its figure.  No fatal configuration error aborts the
run, and the process exit status is unchanged. -/
theorem gradcam_no_conv_not_fatal :
    get_last_conv_layer_name demoNoConvLayers "ResNet50" = none ∧
      generate_figure8 demoNoConvLayers "ResNet50" = FigOutcome.skippedNoLayer ∧
      gradcam_main demoNoConvLayers demoConvLayers =
        [FigOutcome.skippedNoLayer, FigOutcome.saved "conv2d_7"] := by
  refine ⟨?_, ?_, ?_⟩ <;> with_unfolding_all decide

/-- C9 amended: when no qualifying convolutional layer exists, the saliency
engine prints an error and returns without producing a figure, and the run
continues to the next model rather than aborting; and the code performs no
finite-ness check on gradients: a NaN gradient propagates to a NaN heatmap
value silently, with no computation error raised. -/
theorem gradcam_no_conv_continues (layers : List KLayer)
    (h : ∀ l ∈ layers, l.isConv2D = false) :
    generate_figure8 layers "ResNet50" = FigOutcome.skippedNoLayer ∧
      (∀ effLayers, gradcam_main layers effLayers =
        [FigOutcome.skippedNoLayer, generate_figure8 effLayers "EfficientNet-B0"]) ∧
      make_gradcam_heatmap [[TV.fin 1]] [[TV.nan]] = [TV.nan] := by
  have hname : get_last_conv_layer_name layers "ResNet50" = none := by
    unfold get_last_conv_layer_name
    have hfind : (layers.reverse.find? fun l => l.isConv2D) = none := by
      rw [List.find?_eq_none]
      intro l hl
      simp [h l (List.mem_reverse.mp hl)]
    simp [hfind]
  have hfig : generate_figure8 layers "ResNet50" = FigOutcome.skippedNoLayer := by
    unfold generate_figure8
    rw [hname]
  refine ⟨hfig, ?_, ?_⟩
  · intro effLayers
    unfold gradcam_main
    rw [hfig]
  · with_unfolding_all decide

/-- Concrete instantiation of `gradcam_no_conv_continues` at the
demonstration model without convolutional layers. -/
theorem gradcam_no_conv_continues_witness :
    (∀ l ∈ demoNoConvLayers, l.isConv2D = false) ∧
      (generate_figure8 demoNoConvLayers "ResNet50" = FigOutcome.skippedNoLayer ∧
        (∀ effLayers, gradcam_main demoNoConvLayers effLayers =
          [FigOutcome.skippedNoLayer, generate_figure8 effLayers "EfficientNet-B0"]) ∧
        make_gradcam_heatmap [[TV.fin 1]] [[TV.nan]] = [TV.nan]) :=
  ⟨by with_unfolding_all decide,
   gradcam_no_conv_continues demoNoConvLayers (by with_unfolding_all decide)⟩

theorem tvAdd_fin (a b : ℚ) : TV.add (TV.fin a) (TV.fin b) = TV.fin (a + b) := rfl

theorem tvSum_map_fin : ∀ (l : List ℚ) (a : ℚ),
    (l.map TV.fin).foldl TV.add (TV.fin a) = TV.fin (l.foldl (· + ·) a)
  | [], a => rfl
  | x :: xs, a => by
    show (xs.map TV.fin).foldl TV.add (TV.add (TV.fin a) (TV.fin x)) = _
    rw [tvAdd_fin, tvSum_map_fin xs (a + x)]
    rfl

theorem tvSum_fin (l : List ℚ) : tvSum (l.map TV.fin) = TV.fin l.sum := by
  unfold tvSum
  rw [tvSum_map_fin, List.sum_eq_foldl]

theorem zipWith_mul_fin : ∀ (xs ys : List ℚ),
    List.zipWith TV.mul (xs.map TV.fin) (ys.map TV.fin) =
      (List.zipWith (· * ·) xs ys).map TV.fin
  | [], _ => by simp
  | _ :: _, [] => by simp
  | x :: xs, y :: ys => by
    show TV.mul (TV.fin x) (TV.fin y) :: _ = TV.fin (x * y) :: _
    rw [zipWith_mul_fin xs ys]
    rfl

theorem dotTV_fin (xs ys : List ℚ) :
    dotTV (xs.map TV.fin) (ys.map TV.fin) = TV.fin (List.zipWith (· * ·) xs ys).sum := by
  unfold dotTV
  rw [zipWith_mul_fin, tvSum_fin]

theorem getD_map_fin (r : List ℚ) (c : Nat) (h : c < r.length) :
    (r.map TV.fin).getD c TV.nan = TV.fin (r.getD c 0) := by
  rw [List.getD_eq_getElem _ _ (by simpa using h), List.getD_eq_getElem _ _ h]
  simp

theorem tvDiv_fin (a b : ℚ) (hb : b ≠ 0) :
    TV.div (TV.fin a) (TV.fin b) = TV.fin (a / b) := by
  simp [TV.div, hb]

theorem tvMean_fin (l : List ℚ) (h : l ≠ []) :
    tvMean (l.map TV.fin) = TV.fin (l.sum / (l.length : ℚ)) := by
  have hn : ((l.length : Nat) : ℚ) ≠ 0 := by
    have : 0 < l.length := List.length_pos.mpr h
    positivity
  unfold tvMean
  rw [tvSum_fin, List.length_map]
  exact tvDiv_fin _ _ hn

theorem pooled_grads_fin (g : List (List ℚ)) (C : Nat) (hg : g ≠ [])
    (hgC : ∀ r ∈ g, C ≤ r.length) :
    pooled_grads (g.map (List.map TV.fin)) C = (pooledQ g C).map TV.fin := by
  unfold pooled_grads pooledQ
  rw [List.map_map]
  apply List.map_congr_left
  intro c hc
  have hcC : c < C := List.mem_range.mp hc
  have hinner : (g.map (List.map TV.fin)).map (fun r => r.getD c TV.nan) =
      (g.map fun r => r.getD c 0).map TV.fin := by
    rw [List.map_map, List.map_map]
    apply List.map_congr_left
    intro r hr
    exact getD_map_fin r c (Nat.lt_of_lt_of_le hcC (hgC r hr))
  show tvMean ((g.map (List.map TV.fin)).map fun r => r.getD c TV.nan) = _
  rw [hinner, tvMean_fin _ (by simpa using hg), List.length_map]
  rfl

theorem foldl_tmax_fin : ∀ (xs : List ℚ) (a : ℚ),
    (xs.map TV.fin).foldl TV.tmax (TV.fin a) = TV.fin (xs.foldl max a)
  | [], a => rfl
  | x :: xs, a => by
    show (xs.map TV.fin).foldl TV.tmax (TV.tmax (TV.fin a) (TV.fin x)) = _
    rw [show TV.tmax (TV.fin a) (TV.fin x) = TV.fin (max a x) from rfl,
      foldl_tmax_fin xs (max a x)]
    rfl

theorem tvReduceMax_map_fin (x : ℚ) (xs : List ℚ) :
    tvReduceMax ((x :: xs).map TV.fin) = TV.fin (xs.foldl max x) := by
  unfold tvReduceMax
  show (xs.map TV.fin).foldl TV.tmax (TV.tmax TV.ninf (TV.fin x)) = _
  rw [show TV.tmax TV.ninf (TV.fin x) = TV.fin x from rfl, foldl_tmax_fin]

theorem le_foldl_max : ∀ (l : List ℚ) (a : ℚ), a ≤ l.foldl max a
  | [], a => le_refl a
  | x :: xs, a =>
    le_trans (le_max_left a x) (le_foldl_max xs (max a x))

theorem mem_le_foldl_max : ∀ (l : List ℚ) (a x : ℚ), x ∈ l → x ≤ l.foldl max a
  | [], _, x, hx => absurd hx (List.not_mem_nil x)
  | y :: ys, a, x, hx => by
    rcases List.mem_cons.mp hx with h | h
    · subst h
      exact le_trans (le_max_right a x) (le_foldl_max ys (max a x))
    · exact mem_le_foldl_max ys (max a y) x h

theorem foldl_max_mem : ∀ (l : List ℚ) (a : ℚ), l.foldl max a ∈ a :: l
  | [], a => by simp
  | x :: xs, a => by
    have ih := foldl_max_mem xs (max a x)
    show List.foldl max (max a x) xs ∈ a :: x :: xs
    rcases List.mem_cons.mp ih with h | h
    · rcases max_choice a x with hm | hm
      · rw [h, hm]
        exact List.mem_cons_self _ _
      · rw [h, hm]
        exact List.mem_cons_of_mem _ (List.mem_cons_self _ _)
    · exact List.mem_cons_of_mem _ (List.mem_cons_of_mem _ h)

theorem make_gradcam_heatmap_fin (A g : List (List ℚ)) (hA : A ≠ []) (hg : g ≠ [])
    (hgC : ∀ r ∈ g, (A.headD []).length ≤ r.length) :
    make_gradcam_heatmap (A.map (List.map TV.fin)) (g.map (List.map TV.fin)) =
      (rawHeatQ A g).map fun r =>
        TV.div (TV.tmax (TV.fin r) (TV.fin 0)) (TV.fin (rawMaxQ A g)) := by
  obtain ⟨a0, A', rfl⟩ : ∃ a0 A', A = a0 :: A' := by
    cases A with
    | nil => exact absurd rfl hA
    | cons a0 A' => exact ⟨a0, A', rfl⟩
  have hch : (((a0 :: A').map (List.map TV.fin)).headD []).length =
      ((a0 :: A').headD []).length := by simp
  have hpool : pooled_grads (g.map (List.map TV.fin))
      (((a0 :: A').map (List.map TV.fin)).headD []).length =
        (pooledQ g ((a0 :: A').headD []).length).map TV.fin := by
    rw [hch]
    exact pooled_grads_fin g _ hg hgC
  have hheat : ((a0 :: A').map (List.map TV.fin)).map
      (fun pos => dotTV pos ((pooledQ g ((a0 :: A').headD []).length).map TV.fin)) =
        (rawHeatQ (a0 :: A') g).map TV.fin := by
    unfold rawHeatQ
    rw [List.map_map, List.map_map]
    apply List.map_congr_left
    intro r _
    exact dotTV_fin r (pooledQ g ((a0 :: A').headD []).length)
  have hraw : rawHeatQ (a0 :: A') g =
      (List.zipWith (· * ·) a0 (pooledQ g ((a0 :: A').headD []).length)).sum ::
        A'.map fun pos =>
          (List.zipWith (· * ·) pos (pooledQ g ((a0 :: A').headD []).length)).sum := by
    unfold rawHeatQ
    simp
  have hmax : tvReduceMax ((rawHeatQ (a0 :: A') g).map TV.fin) =
      TV.fin (rawMaxQ (a0 :: A') g) := by
    rw [hraw, tvReduceMax_map_fin]
    unfold rawMaxQ
    rw [hraw]
  show (((a0 :: A').map (List.map TV.fin)).map fun pos =>
      dotTV pos (pooled_grads (g.map (List.map TV.fin))
        (((a0 :: A').map (List.map TV.fin)).headD []).length)).map
      (fun v => TV.div (TV.tmax v (TV.fin 0))
        (tvReduceMax (((a0 :: A').map (List.map TV.fin)).map fun pos =>
          dotTV pos (pooled_grads (g.map (List.map TV.fin))
            (((a0 :: A').map (List.map TV.fin)).headD []).length)))) = _
  rw [hpool, hheat, hmax, List.map_map]
  rfl

/-- C5 counterexample: on the activation tensor with a single position and
channel holding 0, with gradient 1, the channel weighted sum is 0, so the
pre rectification maximum is 0 and the normalization divides 0 by 0: the
returned heatmap is `[NaN]`, not the all zero heatmap, and its value is not
in the unit interval. -/
theorem gradcam_zero_max_yields_nan :
    make_gradcam_heatmap [[TV.fin 0]] [[TV.fin 1]] = [TV.nan] ∧
      rawMaxQ [[0]] [[1]] = 0 ∧
      ¬ (∀ v ∈ make_gradcam_heatmap [[TV.fin 0]] [[TV.fin 1]], inUnit01 v = true) ∧
      ¬ (∀ v ∈ make_gradcam_heatmap [[TV.fin 0]] [[TV.fin 1]], v = TV.fin 0) := by
  refine ⟨?_, ?_, ?_, ?_⟩ <;> with_unfolding_all decide

/-- C5 amended: on finite activation and gradient tensors of matching
channel width, let `M` be the maximum of the channel weighted activation
sum before rectification (the denominator on line 70).  If `M` is positive,
every heatmap value is a finite number in [0, 1] and the value 1 is
attained, so the heatmap is not uniformly zero; if `M` is negative, the
heatmap is uniformly zero (the rectified numerators all vanish); if `M` is
exactly zero, every heatmap entry is the NaN of 0 / 0 — not zero, and not
in [0, 1]. -/
theorem gradcam_normalization_cases (A g : List (List ℚ)) (hA : A ≠ []) (hg : g ≠ [])
    (hgC : ∀ r ∈ g, (A.headD []).length ≤ r.length) :
    (0 < rawMaxQ A g →
      (∀ v ∈ make_gradcam_heatmap (A.map (List.map TV.fin)) (g.map (List.map TV.fin)),
        inUnit01 v = true) ∧
      TV.fin 1 ∈ make_gradcam_heatmap (A.map (List.map TV.fin)) (g.map (List.map TV.fin))) ∧
    (rawMaxQ A g < 0 →
      ∀ v ∈ make_gradcam_heatmap (A.map (List.map TV.fin)) (g.map (List.map TV.fin)),
        v = TV.fin 0) ∧
    (rawMaxQ A g = 0 →
      ∀ v ∈ make_gradcam_heatmap (A.map (List.map TV.fin)) (g.map (List.map TV.fin)),
        v = TV.nan) := by
  have heq := make_gradcam_heatmap_fin A g hA hg hgC
  have hrawne : rawHeatQ A g ≠ [] := by
    unfold rawHeatQ
    simpa using hA
  obtain ⟨x, xs, hx⟩ : ∃ x xs, rawHeatQ A g = x :: xs := by
    cases hr : rawHeatQ A g with
    | nil => exact absurd hr hrawne
    | cons x xs => exact ⟨x, xs, rfl⟩
  have hM : rawMaxQ A g = xs.foldl max x := by
    unfold rawMaxQ
    rw [hx]
  have hmemle : ∀ r ∈ rawHeatQ A g, r ≤ rawMaxQ A g := by
    intro r hr
    rw [hx] at hr
    rw [hM]
    rcases List.mem_cons.mp hr with h | h
    · rw [h]
      exact le_foldl_max xs x
    · exact mem_le_foldl_max xs x r h
  have hattained : rawMaxQ A g ∈ rawHeatQ A g := by
    rw [hM, hx]
    exact foldl_max_mem xs x
  refine ⟨?_, ?_, ?_⟩
  · intro hpos
    have hMne : rawMaxQ A g ≠ 0 := ne_of_gt hpos
    constructor
    · intro v hv
      rw [heq] at hv
      obtain ⟨r, hr, rfl⟩ := List.mem_map.mp hv
      have hrM : r ≤ rawMaxQ A g := hmemle r hr
      rw [show TV.tmax (TV.fin r) (TV.fin 0) = TV.fin (max r 0) from rfl,
        tvDiv_fin _ _ hMne]
      have h0 : 0 ≤ max r 0 / rawMaxQ A g := by
        apply div_nonneg (le_max_right r 0) (le_of_lt hpos)
      have h1 : max r 0 / rawMaxQ A g ≤ 1 := by
        rw [div_le_one hpos]
        exact max_le hrM (le_of_lt hpos)
      simp [inUnit01, h0, h1]
    · rw [heq]
      have : TV.div (TV.tmax (TV.fin (rawMaxQ A g)) (TV.fin 0)) (TV.fin (rawMaxQ A g)) =
          TV.fin 1 := by
        rw [show TV.tmax (TV.fin (rawMaxQ A g)) (TV.fin 0) = TV.fin (max (rawMaxQ A g) 0)
            from rfl,
          max_eq_left (le_of_lt hpos), tvDiv_fin _ _ (ne_of_gt hpos),
          div_self (ne_of_gt hpos)]
      rw [← this]
      exact List.mem_map_of_mem _ hattained
  · intro hneg
    intro v hv
    rw [heq] at hv
    obtain ⟨r, hr, rfl⟩ := List.mem_map.mp hv
    have hrM : r ≤ rawMaxQ A g := hmemle r hr
    have hr0 : max r 0 = 0 := max_eq_right (le_trans hrM (le_of_lt hneg))
    rw [show TV.tmax (TV.fin r) (TV.fin 0) = TV.fin (max r 0) from rfl, hr0,
      tvDiv_fin _ _ (ne_of_lt hneg), zero_div]
  · intro hzero
    intro v hv
    rw [heq] at hv
    obtain ⟨r, hr, rfl⟩ := List.mem_map.mp hv
    have hrM : r ≤ rawMaxQ A g := hmemle r hr
    have hr0 : max r 0 = 0 := max_eq_right (hzero ▸ hrM)
    rw [show TV.tmax (TV.fin r) (TV.fin 0) = TV.fin (max r 0) from rfl, hr0, hzero]
    simp [TV.div]

/-- Concrete instantiation of `gradcam_normalization_cases` on a two
position, one channel activation tensor with positive maximum: the output
is `[1/2, 1]`, inside the unit interval with maximum 1. -/
theorem gradcam_normalization_cases_witness :
    (([[1], [2]] : List (List ℚ)) ≠ [] ∧ ([[1], [1]] : List (List ℚ)) ≠ [] ∧
      (∀ r ∈ ([[1], [1]] : List (List ℚ)),
        (([[1], [2]] : List (List ℚ)).headD []).length ≤ r.length)) ∧
      ((0 < rawMaxQ [[1], [2]] [[1], [1]] →
        (∀ v ∈ make_gradcam_heatmap (([[1], [2]] : List (List ℚ)).map (List.map TV.fin))
            (([[1], [1]] : List (List ℚ)).map (List.map TV.fin)),
          inUnit01 v = true) ∧
        TV.fin 1 ∈ make_gradcam_heatmap (([[1], [2]] : List (List ℚ)).map (List.map TV.fin))
          (([[1], [1]] : List (List ℚ)).map (List.map TV.fin))) ∧
      (rawMaxQ [[1], [2]] [[1], [1]] < 0 →
        ∀ v ∈ make_gradcam_heatmap (([[1], [2]] : List (List ℚ)).map (List.map TV.fin))
            (([[1], [1]] : List (List ℚ)).map (List.map TV.fin)),
          v = TV.fin 0) ∧
      (rawMaxQ [[1], [2]] [[1], [1]] = 0 →
        ∀ v ∈ make_gradcam_heatmap (([[1], [2]] : List (List ℚ)).map (List.map TV.fin))
            (([[1], [1]] : List (List ℚ)).map (List.map TV.fin)),
          v = TV.nan)) :=
  ⟨⟨by with_unfolding_all decide, by with_unfolding_all decide,
    by with_unfolding_all decide⟩,
   gradcam_normalization_cases [[1], [2]] [[1], [1]]
     (by with_unfolding_all decide) (by with_unfolding_all decide)
     (by with_unfolding_all decide)⟩

theorem sorted_getD_mono (a : List ℚ) (ha : a.Sorted (· ≤ ·)) (i j : Nat) (hij : i ≤ j)
    (hj : j < a.length) : a.getD i 0 ≤ a.getD j 0 := by
  have hi : i < a.length := lt_of_le_of_lt hij hj
  rw [List.getD_eq_getElem a 0 hi, List.getD_eq_getElem a 0 hj]
  have := ha.rel_get_of_le (show (⟨i, hi⟩ : Fin a.length) ≤ ⟨j, hj⟩ from hij)
  simpa using this

theorem interpAt_def (a : List ℚ) (h : ℚ) :
    interpAt a h = a.getD (⌊h⌋).toNat 0 +
      (h - (((⌊h⌋).toNat : Nat) : ℚ)) *
        (a.getD ((⌊h⌋).toNat + 1) (a.getD (⌊h⌋).toNat 0) - a.getD (⌊h⌋).toNat 0) := rfl

theorem interpAt_mono (a : List ℚ) (ha : a.Sorted (· ≤ ·)) (hne : a ≠ [])
    (h1 h2 : ℚ) (h10 : 0 ≤ h1) (h12 : h1 ≤ h2) (h2ub : h2 ≤ (a.length : ℚ) - 1) :
    interpAt a h1 ≤ interpAt a h2 := by
  have h20 : 0 ≤ h2 := le_trans h10 h12
  have hnpos : 0 < a.length := List.length_pos.mpr hne
  have hf1nn : 0 ≤ ⌊h1⌋ := Int.le_floor.mpr (by exact_mod_cast h10)
  have hf2nn : 0 ≤ ⌊h2⌋ := Int.le_floor.mpr (by exact_mod_cast h20)
  have hz1 : ((⌊h1⌋.toNat : Nat) : ℤ) = ⌊h1⌋ := Int.toNat_of_nonneg hf1nn
  have hz2 : ((⌊h2⌋.toNat : Nat) : ℤ) = ⌊h2⌋ := Int.toNat_of_nonneg hf2nn
  have hc1 : ((⌊h1⌋.toNat : Nat) : ℚ) = ((⌊h1⌋ : ℤ) : ℚ) := by
    exact_mod_cast congrArg (fun z : ℤ => (z : ℚ)) hz1
  have hc2 : ((⌊h2⌋.toNat : Nat) : ℚ) = ((⌊h2⌋ : ℤ) : ℚ) := by
    exact_mod_cast congrArg (fun z : ℤ => (z : ℚ)) hz2
  rw [interpAt_def a h1, interpAt_def a h2]
  set f1 := (⌊h1⌋).toNat with hf1def
  set f2 := (⌊h2⌋).toNat with hf2def
  have hf1le : ((f1 : Nat) : ℚ) ≤ h1 := by rw [hc1]; exact Int.floor_le h1
  have hf2le : ((f2 : Nat) : ℚ) ≤ h2 := by rw [hc2]; exact Int.floor_le h2
  have hf1lt : h1 < ((f1 : Nat) : ℚ) + 1 := by rw [hc1]; exact Int.lt_floor_add_one h1
  have hf2lt : h2 < ((f2 : Nat) : ℚ) + 1 := by rw [hc2]; exact Int.lt_floor_add_one h2
  have hf12 : f1 ≤ f2 := Int.toNat_le_toNat (Int.floor_le_floor h12)
  have hf2n : f2 < a.length := by
    have hq : ((f2 : Nat) : ℚ) ≤ ((a.length : Nat) : ℚ) - 1 := le_trans hf2le h2ub
    have hq2 : ((f2 : Nat) : ℚ) + 1 ≤ ((a.length : Nat) : ℚ) := by linarith
    exact_mod_cast hq2
  rcases Nat.lt_or_ge f1 f2 with hlt | hge
  · have hf11n : f1 + 1 < a.length := lt_of_le_of_lt hlt hf2n
    have hx1y1 : a.getD f1 0 ≤ a.getD (f1 + 1) 0 :=
      sorted_getD_mono a ha f1 (f1 + 1) (Nat.le_succ f1) hf11n
    have hy1 : a.getD (f1 + 1) (a.getD f1 0) = a.getD (f1 + 1) 0 := by
      rw [List.getD_eq_getElem a _ hf11n, List.getD_eq_getElem a 0 hf11n]
    have hup : a.getD f1 0 +
        (h1 - ((f1 : Nat) : ℚ)) * (a.getD (f1 + 1) (a.getD f1 0) - a.getD f1 0) ≤
          a.getD (f1 + 1) 0 := by
      rw [hy1]
      have ht1 : h1 - ((f1 : Nat) : ℚ) ≤ 1 := by linarith
      have hyx : 0 ≤ a.getD (f1 + 1) 0 - a.getD f1 0 := sub_nonneg.mpr hx1y1
      nlinarith
    have hmid : a.getD (f1 + 1) 0 ≤ a.getD f2 0 :=
      sorted_getD_mono a ha (f1 + 1) f2 hlt hf2n
    have hlow : a.getD f2 0 ≤ a.getD f2 0 +
        (h2 - ((f2 : Nat) : ℚ)) * (a.getD (f2 + 1) (a.getD f2 0) - a.getD f2 0) := by
      have ht2 : 0 ≤ h2 - ((f2 : Nat) : ℚ) := by linarith
      have hyx : a.getD f2 0 ≤ a.getD (f2 + 1) (a.getD f2 0) := by
        rcases Nat.lt_or_ge (f2 + 1) a.length with hin | hout
        · have heq2 : a.getD (f2 + 1) (a.getD f2 0) = a.getD (f2 + 1) 0 := by
            rw [List.getD_eq_getElem a _ hin, List.getD_eq_getElem a 0 hin]
          rw [heq2]
          exact sorted_getD_mono a ha f2 (f2 + 1) (Nat.le_succ f2) hin
        · rw [List.getD_eq_default _ _ hout]
      nlinarith
    exact le_trans hup (le_trans hmid hlow)
  · have heq : f2 = f1 := Nat.le_antisymm hge hf12
    rw [heq]
    have hyx : a.getD f1 0 ≤ a.getD (f1 + 1) (a.getD f1 0) := by
      rcases Nat.lt_or_ge (f1 + 1) a.length with hin | hout
      · have heq2 : a.getD (f1 + 1) (a.getD f1 0) = a.getD (f1 + 1) 0 := by
          rw [List.getD_eq_getElem a _ hin, List.getD_eq_getElem a 0 hin]
        rw [heq2]
        exact sorted_getD_mono a ha f1 (f1 + 1) (Nat.le_succ f1) hin
      · rw [List.getD_eq_default _ _ hout]
    have hsub : 0 ≤ a.getD (f1 + 1) (a.getD f1 0) - a.getD f1 0 := sub_nonneg.mpr hyx
    have h12f : h1 - ((f1 : Nat) : ℚ) ≤ h2 - ((f1 : Nat) : ℚ) := by linarith
    nlinarith

theorem np_percentile_mono (ps : List ℚ) (hne : ps ≠ []) (q1 q2 : ℚ)
    (h0 : 0 ≤ q1) (h12 : q1 ≤ q2) (h100 : q2 ≤ 100) :
    np_percentile ps q1 ≤ np_percentile ps q2 := by
  unfold np_percentile
  have hsorted : (List.insertionSort (· ≤ ·) ps).Sorted (· ≤ ·) :=
    List.sorted_insertionSort (· ≤ ·) ps
  have hlen : (List.insertionSort (· ≤ ·) ps).length = ps.length :=
    List.length_insertionSort (· ≤ ·) ps
  have hne2 : List.insertionSort (· ≤ ·) ps ≠ [] := by
    intro hcon
    apply hne
    rw [hcon] at hlen
    exact List.length_eq_zero.mp hlen.symm
  have hlen1 : (1 : ℚ) ≤ ((List.insertionSort (· ≤ ·) ps).length : ℚ) := by
    have : 0 < (List.insertionSort (· ≤ ·) ps).length := List.length_pos.mpr hne2
    exact_mod_cast this
  apply interpAt_mono _ hsorted hne2
  · apply mul_nonneg (by positivity)
    linarith
  · apply mul_le_mul_of_nonneg_right _ (by linarith)
    apply div_le_div_of_nonneg_right h12 (by norm_num)
  · have hq : q2 / 100 ≤ 1 := div_le_one_of_le₀ h100 (by norm_num)
    calc q2 / 100 * (((List.insertionSort (· ≤ ·) ps).length : ℚ) - 1)
        ≤ 1 * (((List.insertionSort (· ≤ ·) ps).length : ℚ) - 1) :=
          mul_le_mul_of_nonneg_right hq (by linarith)
      _ = ((List.insertionSort (· ≤ ·) ps).length : ℚ) - 1 := one_mul _

/-- C4 counterexample: the percentage list
`[0, 50, 50, 50, 50, 50, 50, 50, 50, 100]` has three distinct values and
nonzero variance, yet the quantile strategy returns the degenerate pair
(50, 50): both the 33rd and the 67th linearly interpolated percentile fall
on the flat middle of the distribution, `low < high` fails, and no
configuration error is raised — the pair is returned as is. -/
theorem thresholds_degenerate_no_error :
    (([0, 50, 50, 50, 50, 50, 50, 50, 50, 100] : List ℚ).dedup.length = 3) ∧
      npVar [0, 50, 50, 50, 50, 50, 50, 50, 50, 100] = 500 ∧
      determine_optimal_thresholds [0, 50, 50, 50, 50, 50, 50, 50, 50, 100] "quantile" =
        some (50, 50) ∧
      ¬ ((50 : ℚ) < 50) := by
  refine ⟨?_, ?_, ?_, ?_⟩ <;> with_unfolding_all decide

theorem nearestIdx_three (c0 c1 c2 x : ℚ) :
    nearestIdx [c0, c1, c2] x =
      (if |c2 - x| < |(if |c1 - x| < |c0 - x| then ((1 : Nat), c1) else (0, c0)).2 - x|
        then ((2 : Nat), c2)
        else (if |c1 - x| < |c0 - x| then ((1 : Nat), c1) else (0, c0))).1 := by
  unfold nearestIdx
  simp [List.enum, List.enumFrom, List.foldl]

theorem nearestIdx_zero_abs (c0 c1 c2 x : ℚ) (h : nearestIdx [c0, c1, c2] x = 0) :
    |c0 - x| ≤ |c2 - x| := by
  rw [nearestIdx_three] at h
  by_cases h1 : |c1 - x| < |c0 - x|
  · by_cases h2 : |c2 - x| < |c1 - x|
    · rw [if_pos h1] at h
      rw [if_pos (by simpa using h2)] at h
      exact absurd h (by norm_num)
    · rw [if_pos h1] at h
      rw [if_neg (by simpa using h2)] at h
      exact absurd h (by norm_num)
  · by_cases h2 : |c2 - x| < |c0 - x|
    · rw [if_neg h1] at h
      rw [if_pos (by simpa using h2)] at h
      exact absurd h (by norm_num)
    · exact not_lt.mp h2

theorem nearestIdx_two_abs (c0 c1 c2 x : ℚ) (h : nearestIdx [c0, c1, c2] x = 2) :
    |c2 - x| < |c0 - x| := by
  rw [nearestIdx_three] at h
  by_cases h1 : |c1 - x| < |c0 - x|
  · by_cases h2 : |c2 - x| < |c1 - x|
    · exact lt_trans h2 h1
    · rw [if_pos h1] at h
      rw [if_neg (by simpa using h2)] at h
      exact absurd h (by norm_num)
  · by_cases h2 : |c2 - x| < |c0 - x|
    · exact h2
    · rw [if_neg h1] at h
      rw [if_neg (by simpa using h2)] at h
      exact absurd h (by norm_num)

theorem assigned_zero_le_mid (c0 c1 c2 x : ℚ) (h : c0 < c2)
    (hx : nearestIdx [c0, c1, c2] x = 0) : x ≤ (c0 + c2) / 2 := by
  have habs := nearestIdx_zero_abs c0 c1 c2 x hx
  have hsq : (c0 - x) * (c0 - x) ≤ (c2 - x) * (c2 - x) := by
    have := mul_self_le_mul_self (abs_nonneg (c0 - x)) habs
    simpa [abs_mul_abs_self] using this
  nlinarith

theorem assigned_two_gt_mid (c0 c1 c2 x : ℚ) (h : c0 < c2)
    (hx : nearestIdx [c0, c1, c2] x = 2) : (c0 + c2) / 2 < x := by
  have habs := nearestIdx_two_abs c0 c1 c2 x hx
  have hsq : (c2 - x) * (c2 - x) < (c0 - x) * (c0 - x) := by
    have := mul_self_lt_mul_self (abs_nonneg (c2 - x)) habs
    simpa [abs_mul_abs_self] using this
  nlinarith

theorem sum_le_len_mul (t : ℚ) : ∀ l : List ℚ, (∀ x ∈ l, x ≤ t) →
    l.sum ≤ (l.length : ℚ) * t
  | [], _ => by simp
  | a :: l, h => by
    have ha : a ≤ t := h a (by simp)
    have hl := sum_le_len_mul t l fun x hx => h x (List.mem_cons_of_mem a hx)
    simp only [List.sum_cons, List.length_cons]
    push_cast
    linarith

theorem len_mul_lt_sum (t : ℚ) : ∀ l : List ℚ, l ≠ [] → (∀ x ∈ l, t < x) →
    (l.length : ℚ) * t < l.sum
  | [], hne, _ => absurd rfl hne
  | a :: l, _, h => by
    have ha : t < a := h a (by simp)
    have hl : (l.length : ℚ) * t ≤ l.sum := by
      cases l with
      | nil => simp
      | cons b l' =>
        exact le_of_lt (len_mul_lt_sum t (b :: l') (by simp)
          fun x hx => h x (List.mem_cons_of_mem a hx))
    simp only [List.sum_cons, List.length_cons]
    push_cast
    linarith

theorem mean_le_of_all_le (l : List ℚ) (t : ℚ) (hne : l ≠ []) (h : ∀ x ∈ l, x ≤ t) :
    l.sum / (l.length : ℚ) ≤ t := by
  have hpos : (0 : ℚ) < (l.length : ℚ) := by
    have : 0 < l.length := List.length_pos.mpr hne
    exact_mod_cast this
  rw [div_le_iff₀ hpos, mul_comm]
  exact sum_le_len_mul t l h

theorem lt_mean_of_all_gt (l : List ℚ) (t : ℚ) (hne : l ≠ []) (h : ∀ x ∈ l, t < x) :
    t < l.sum / (l.length : ℚ) := by
  have hpos : (0 : ℚ) < (l.length : ℚ) := by
    have : 0 < l.length := List.length_pos.mpr hne
    exact_mod_cast this
  rw [lt_div_iff₀ hpos, mul_comm]
  exact len_mul_lt_sum t l hne h

theorem lloydStep_three (ps : List ℚ) (c0 c1 c2 : ℚ) :
    lloydStep ps [c0, c1, c2] =
      [(fun j (c : ℚ) =>
          let assigned := ps.filter fun x => nearestIdx [c0, c1, c2] x == j
          if assigned.isEmpty then c else assigned.sum / (assigned.length : ℚ)) 0 c0,
       (fun j (c : ℚ) =>
          let assigned := ps.filter fun x => nearestIdx [c0, c1, c2] x == j
          if assigned.isEmpty then c else assigned.sum / (assigned.length : ℚ)) 1 c1,
       (fun j (c : ℚ) =>
          let assigned := ps.filter fun x => nearestIdx [c0, c1, c2] x == j
          if assigned.isEmpty then c else assigned.sum / (assigned.length : ℚ)) 2 c2] := by
  unfold lloydStep
  simp [List.enum, List.enumFrom]

theorem lloydStep_spread (ps : List ℚ) (c0 c1 c2 : ℚ) (h : c0 < c2) :
    ∃ d0 d1 d2, lloydStep ps [c0, c1, c2] = [d0, d1, d2] ∧ d0 < d2 := by
  refine ⟨_, _, _, lloydStep_three ps c0 c1 c2, ?_⟩
  have hmemA : ∀ x ∈ ps.filter fun x => nearestIdx [c0, c1, c2] x == 0,
      x ≤ (c0 + c2) / 2 := by
    intro x hx
    have := List.mem_filter.mp hx
    exact assigned_zero_le_mid c0 c1 c2 x h (by simpa using this.2)
  have hmemC : ∀ x ∈ ps.filter fun x => nearestIdx [c0, c1, c2] x == 2,
      (c0 + c2) / 2 < x := by
    intro x hx
    have := List.mem_filter.mp hx
    exact assigned_two_gt_mid c0 c1 c2 x h (by simpa using this.2)
  have hleft : (let assigned := ps.filter fun x => nearestIdx [c0, c1, c2] x == 0
      if assigned.isEmpty then c0 else assigned.sum / (assigned.length : ℚ)) ≤
        (c0 + c2) / 2 := by
    dsimp only
    split
    · linarith
    · next hA =>
      exact mean_le_of_all_le _ _ (by simpa [List.isEmpty_iff] using hA) hmemA
  have hright : (c0 + c2) / 2 <
      (let assigned := ps.filter fun x => nearestIdx [c0, c1, c2] x == 2
        if assigned.isEmpty then c2 else assigned.sum / (assigned.length : ℚ)) := by
    dsimp only
    split
    · linarith
    · next hC =>
      exact lt_mean_of_all_gt _ _ (by simpa [List.isEmpty_iff] using hC) hmemC
  exact lt_of_le_of_lt hleft hright

theorem lloydIter_spread : ∀ (fuel : Nat) (ps : List ℚ) (c0 c1 c2 : ℚ), c0 < c2 →
    ∃ d0 d1 d2, lloydIter fuel ps [c0, c1, c2] = [d0, d1, d2] ∧ d0 < d2
  | 0, ps, c0, c1, c2, h => ⟨c0, c1, c2, rfl, h⟩
  | fuel + 1, ps, c0, c1, c2, h => by
    obtain ⟨d0, d1, d2, hstep, hd⟩ := lloydStep_spread ps c0 c1 c2 h
    obtain ⟨e0, e1, e2, hiter, he⟩ := lloydIter_spread fuel ps d0 d1 d2 hd
    refine ⟨e0, e1, e2, ?_, he⟩
    show lloydIter fuel ps (lloydStep ps [c0, c1, c2]) = [e0, e1, e2]
    rw [hstep]
    exact hiter

theorem sorted_spread (l : List ℚ) (x y : ℚ) (hx : x ∈ l) (hy : y ∈ l) (hxy : x < y) :
    (List.insertionSort (· ≤ ·) l).getD 0 0 <
      (List.insertionSort (· ≤ ·) l).getD ((List.insertionSort (· ≤ ·) l).length - 1) 0 := by
  have hsorted : (List.insertionSort (· ≤ ·) l).Sorted (· ≤ ·) :=
    List.sorted_insertionSort (· ≤ ·) l
  have hperm := List.perm_insertionSort (· ≤ ·) l
  have hxs : x ∈ List.insertionSort (· ≤ ·) l := hperm.mem_iff.mpr hx
  have hys : y ∈ List.insertionSort (· ≤ ·) l := hperm.mem_iff.mpr hy
  obtain ⟨i, hi, hix⟩ := List.mem_iff_getElem.mp hxs
  obtain ⟨j, hj, hjy⟩ := List.mem_iff_getElem.mp hys
  have hlow : (List.insertionSort (· ≤ ·) l).getD 0 0 ≤ x := by
    rw [← hix, ← List.getD_eq_getElem _ 0 hi]
    exact sorted_getD_mono _ hsorted 0 i (Nat.zero_le i) hi
  have hhigh : y ≤ (List.insertionSort (· ≤ ·) l).getD
      ((List.insertionSort (· ≤ ·) l).length - 1) 0 := by
    rw [← hjy, ← List.getD_eq_getElem _ 0 hj]
    apply sorted_getD_mono _ hsorted j _ (by omega) (by omega)
  linarith

theorem exists_two_distinct (ps : List ℚ) (h : 3 ≤ ps.dedup.length) :
    ∃ x ∈ ps, ∃ y ∈ ps, x < y := by
  obtain ⟨d1, d2, rest, hd⟩ : ∃ d1 d2 rest, ps.dedup = d1 :: d2 :: rest := by
    cases hdd : ps.dedup with
    | nil => rw [hdd] at h; simp at h
    | cons d1 tl =>
      cases htl : tl with
      | nil => rw [hdd, htl] at h; simp at h
      | cons d2 rest => exact ⟨d1, d2, rest, rfl⟩
  have hnd : (d1 :: d2 :: rest).Nodup := hd ▸ ps.nodup_dedup
  have hne12 : d1 ≠ d2 := by
    intro hcon
    have := (List.nodup_cons.mp hnd).1
    exact this (hcon ▸ List.mem_cons_self d2 rest)
  have hm1 : d1 ∈ ps := List.mem_dedup.mp (hd ▸ List.mem_cons_self d1 (d2 :: rest))
  have hm2 : d2 ∈ ps := List.mem_dedup.mp
    (hd ▸ List.mem_cons_of_mem d1 (List.mem_cons_self d2 rest))
  rcases lt_or_gt_of_ne hne12 with hlt | hgt
  · exact ⟨d1, hm1, d2, hm2, hlt⟩
  · exact ⟨d2, hm2, d1, hm1, hgt⟩

/-- C4 amended: the domain strategy always returns the fixed pair
(8.0, 11.0), which satisfies low < high; the kmeans strategy, on every
input with at least 3 distinct values, returns the midpoints of the three
sorted cluster centers with low < high (the extreme centers keep a strict
spread through every Lloyd iteration); the quantile strategy returns the
33rd and 67th linearly interpolated percentiles, which satisfy low ≤ high
on every nonempty input but can be equal even for inputs with at least 3
distinct values and nonzero variance; no strategy validates its output and
the selector never fails with a configuration error on such degenerate
results. -/
theorem thresholds_domain_quantile (percentages : List ℚ) (hne : percentages ≠ []) :
    determine_optimal_thresholds percentages "domain" = some (8, 11) ∧ (8 : ℚ) < 11 ∧
      determine_optimal_thresholds percentages "quantile" =
        some (np_percentile percentages 33, np_percentile percentages 67) ∧
      np_percentile percentages 33 ≤ np_percentile percentages 67 ∧
      (3 ≤ percentages.dedup.length →
        ∃ lo hi, determine_optimal_thresholds percentages "kmeans" = some (lo, hi) ∧
          lo < hi) := by
  have hempty : percentages.isEmpty = false := by
    cases percentages with
    | nil => exact absurd rfl hne
    | cons a l => rfl
  refine ⟨?_, by norm_num, ?_, ?_, ?_⟩
  · unfold determine_optimal_thresholds
    rw [show (("domain" : String) == "quantile") = false from by decide,
      show (("domain" : String) == "domain") = true from by decide]
    simp
  · unfold determine_optimal_thresholds
    rw [show (("quantile" : String) == "quantile") = true from by decide]
    simp [hempty]
  · exact np_percentile_mono percentages hne 33 67 (by norm_num) (by norm_num) (by norm_num)
  · intro h3
    obtain ⟨x, hx, y, hy, hxy⟩ := exists_two_distinct percentages h3
    have hinit : (List.insertionSort (· ≤ ·) percentages).getD 0 0 <
        (List.insertionSort (· ≤ ·) percentages).getD
          ((List.insertionSort (· ≤ ·) percentages).length - 1) 0 :=
      sorted_spread percentages x y hx hy hxy
    obtain ⟨d0, d1, d2, hiter, hd⟩ := lloydIter_spread 20 percentages
      ((List.insertionSort (· ≤ ·) percentages).getD 0 0)
      ((List.insertionSort (· ≤ ·) percentages).getD
        ((List.insertionSort (· ≤ ·) percentages).length / 2) 0)
      ((List.insertionSort (· ≤ ·) percentages).getD
        ((List.insertionSort (· ≤ ·) percentages).length - 1) 0)
      hinit
    have hkm : kmeans3Centers percentages = [d0, d1, d2] := by
      unfold kmeans3Centers
      exact hiter
    have hspread : (List.insertionSort (· ≤ ·) [d0, d1, d2]).getD 0 0 <
        (List.insertionSort (· ≤ ·) [d0, d1, d2]).getD
          ((List.insertionSort (· ≤ ·) [d0, d1, d2]).length - 1) 0 :=
      sorted_spread [d0, d1, d2] d0 d2 (by simp) (by simp) hd
    have hlen3 : (List.insertionSort (· ≤ ·) [d0, d1, d2]).length = 3 :=
      List.length_insertionSort (· ≤ ·) [d0, d1, d2]
    rw [hlen3] at hspread
    have hcount : ¬ percentages.length < 3 := by
      have hsub : percentages.dedup.length ≤ percentages.length :=
        List.Sublist.length_le (List.dedup_sublist percentages)
      omega
    refine ⟨((List.insertionSort (· ≤ ·) [d0, d1, d2]).getD 0 0 +
        (List.insertionSort (· ≤ ·) [d0, d1, d2]).getD 1 0) / 2,
      ((List.insertionSort (· ≤ ·) [d0, d1, d2]).getD 1 0 +
        (List.insertionSort (· ≤ ·) [d0, d1, d2]).getD 2 0) / 2, ?_, ?_⟩
    · unfold determine_optimal_thresholds
      rw [show (("kmeans" : String) == "quantile") = false from by decide,
        show (("kmeans" : String) == "domain") = false from by decide,
        show (("kmeans" : String) == "kmeans") = true from by decide]
      simp only [Bool.false_eq_true, if_false, if_true, hcount]
      rw [hkm]
    · have : (List.insertionSort (· ≤ ·) [d0, d1, d2]).getD 0 0 <
          (List.insertionSort (· ≤ ·) [d0, d1, d2]).getD 2 0 := by
        simpa using hspread
      linarith

/-- Concrete instantiation of `thresholds_domain_quantile` at the
counterexample list: domain returns (8, 11), the quantile pair is ordered
(degenerately equal there), and the kmeans pair is strictly ordered. -/
theorem thresholds_domain_quantile_witness :
    (([0, 50, 50, 50, 50, 50, 50, 50, 50, 100] : List ℚ) ≠ []) ∧
      (determine_optimal_thresholds [0, 50, 50, 50, 50, 50, 50, 50, 50, 100] "domain" =
          some (8, 11) ∧ (8 : ℚ) < 11 ∧
        determine_optimal_thresholds [0, 50, 50, 50, 50, 50, 50, 50, 50, 100] "quantile" =
          some (np_percentile [0, 50, 50, 50, 50, 50, 50, 50, 50, 100] 33,
            np_percentile [0, 50, 50, 50, 50, 50, 50, 50, 50, 100] 67) ∧
        np_percentile [0, 50, 50, 50, 50, 50, 50, 50, 50, 100] 33 ≤
          np_percentile [0, 50, 50, 50, 50, 50, 50, 50, 50, 100] 67 ∧
        (3 ≤ ([0, 50, 50, 50, 50, 50, 50, 50, 50, 100] : List ℚ).dedup.length →
          ∃ lo hi,
            determine_optimal_thresholds [0, 50, 50, 50, 50, 50, 50, 50, 50, 100] "kmeans" =
              some (lo, hi) ∧ lo < hi)) :=
  ⟨by with_unfolding_all decide,
   thresholds_domain_quantile [0, 50, 50, 50, 50, 50, 50, 50, 50, 100]
     (by with_unfolding_all decide)⟩
